import Mathlib

set_option autoImplicit false

/-!
Shallow embedding of the `ss` delimited-text parser core
(`include/ss/setup.hpp`, `include/ss/parser.hpp`): the splitter state
machine with its in-place shifting, the converter's arity checking and
typed extraction, and the parser facade's record retrieval loop.
Buffers are modelled as lists of bytes (`List Char`); the C null
terminator is the virtual byte read at or past the end of the list.
Pointers into a buffer are modelled as natural-number indices.
-/

namespace SSP

/-- The null terminator byte of the C record buffers.  A record buffer is
modelled as the list of its content bytes before the terminator, so the
buffer content itself never contains this byte. -/
def nulChar : Char := '\x00'

/-- Read the byte at index `i` of the buffer (`*(line + i)`): in-range
reads return the stored byte, out-of-range reads return the null
sentinel, exactly as reading the terminator of the C string does. -/
def getc (buf : List Char) (i : Nat) : Char := buf.getD i nulChar

/-- `matcher<Cs...>::match(c)`: membership of `c` in the matcher's
character pack.  A disabled matcher is modelled by the empty pack. -/
def matcherMatch (m : List Char) (c : Char) : Bool := m.contains c

/-- `quote<C>::match(c)` for an optionally enabled quote matcher. -/
def quoteMatch (q : Option Char) (c : Char) : Bool :=
  match q with
  | some qc => c == qc
  | none => false

/-- One splitter configuration (`setup<Ts...>`): the quote byte if
quoting is enabled, the escape byte pack, the two trim packs (a `trim`
option enables both sides with the same pack), and whether multiline
support is enabled.  The `static_assert`s of `setup` (no terminator in a
matcher, disjointness of the matchers) appear as hypotheses of the
theorems that need them. -/
structure SplitCfg where
  quote : Option Char
  escape : List Char
  trimLeft : List Char
  trimRight : List Char
  multiline : Bool
  deriving Repr, DecidableEq

/-- The loop of `trim_left_if_enabled` / `trim_right_if_enabled` with
explicit fuel: advance the cursor while it points at a matcher byte.
(The C matchers can never contain the terminator -- `static_assert` in
`matcher` -- so the C scan always stops at the end of the buffer, which
the `i < buf.length` guard reproduces.) -/
def trimSkipAux (m : List Char) (buf : List Char) : Nat → Nat → Nat
  | 0, i => i
  | fuel + 1, i =>
    if i < buf.length then
      if matcherMatch m (getc buf i) then trimSkipAux m buf fuel (i + 1) else i
    else i

/-- Skip matcher bytes starting at index `i`; `buf.length - i` steps of
fuel always suffice. -/
def trimSkip (m : List Char) (buf : List Char) (i : Nat) : Nat :=
  trimSkipAux m buf (buf.length - i) i

/-- `strncmp(curr, delim.c_str(), delim.size()) == 0`: the delimiter
occurs at index `i` of the buffer. -/
def delimAt (delim : List Char) (buf : List Char) (i : Nat) : Bool :=
  delim.isPrefixOf (buf.drop i)

/-- Splitter error conditions (`set_error_*` in `ss::splitter`).  In the
string-error configuration these correspond to the distinct messages, in
the flag configuration they all collapse to `error_ = true`. -/
inductive SplitErr where
  | emptyDelimiter
  | mismatchedQuote (pos : Nat)
  | unterminatedEscape
  | unterminatedQuote
  | invalidResplit
  deriving Repr, DecidableEq

/-- The mutable state of `ss::splitter`.  `buf` is the record buffer the
splitter mutates in place (`line_`), `beginIdx`/`currIdx`/`endIdx` are
the `begin_`/`curr_`/`end_` cursors as indices into `buf`, `escaped` is
the per-field shift counter `escaped_`, and `splitData` holds the
emitted ranges as index pairs into `buf`. -/
structure SplitState where
  buf : List Char
  beginIdx : Nat
  currIdx : Nat
  endIdx : Nat
  escaped : Nat
  splitData : List (Nat × Nat)
  error : Option SplitErr
  unterminatedQuote : Bool
  done : Bool
  resplitting : Bool
  deriving Repr, DecidableEq

/-- `std::copy_n(curr_ + escaped_, end_ - curr_ - escaped_, curr_)`: the
overlapping forward copy moving the decoded payload left over the elided
bytes, inside the same buffer. -/
def copyDown (buf : List Char) (dst src n : Nat) : List Char :=
  buf.take dst ++ (buf.drop src).take n ++ buf.drop (dst + n)

/-- `splitter::shift_and_set_current`. -/
def shiftAndSetCurrent (st : SplitState) : SplitState :=
  if 0 < st.escaped then
    { st with
      buf := copyDown st.buf st.currIdx (st.currIdx + st.escaped)
               (st.endIdx - st.currIdx - st.escaped)
      currIdx := st.endIdx - st.escaped }
  else { st with currIdx := st.endIdx }

/-- `splitter::shift_and_jump_escape`.  (The `escaped_` increment is
guarded by `!is_const_line` in the source; the function is only ever
invoked when a quote or escape matcher is enabled, i.e. when
`is_const_line` is false, so the increment is unconditional here.) -/
def shiftAndJumpEscape (st : SplitState) : SplitState :=
  let st' := shiftAndSetCurrent st
  { st' with escaped := st'.escaped + 1, endIdx := st'.endIdx + 1 }

/-- `splitter::shift_and_push`. -/
def shiftAndPush (st : SplitState) : SplitState :=
  let st' := shiftAndSetCurrent st
  { st' with splitData := st'.splitData ++ [(st'.beginIdx, st'.currIdx)] }

/-- `splitter::shift_push_and_start_next`. -/
def shiftPushAndStartNext (st : SplitState) (n : Nat) : SplitState :=
  let st' := shiftAndPush st
  { st' with beginIdx := st'.endIdx + n }

/-- `splitter::shift_if_escaped`, applied at the cursor `e`: on a live
escape before the terminator the escape byte is elided and the cursors
jump, an escape directly before the terminator is the unterminated
escape error. -/
def shiftIfEscaped (cfg : SplitCfg) (st : SplitState) (e : Nat) : SplitState :=
  if matcherMatch cfg.escape (getc st.buf e) then
    if getc st.buf (e + 1) == nulChar then
      { st with error := some .unterminatedEscape, done := true }
    else shiftAndJumpEscape st
  else st

/-- `splitter::match_delimiter(begin, delim)`: returns the width/valid
pair together with the (possibly shifted) state, since the escape branch
mutates the splitter. -/
def matchDelimiter (cfg : SplitCfg) (delim : List Char) (st : SplitState)
    (b : Nat) : Nat × Bool × SplitState :=
  let e := trimSkip cfg.trimRight st.buf b
  if getc st.buf e == nulChar then
    (0, false, st)
  else if delimAt delim st.buf e then
    let e2 := trimSkip cfg.trimLeft st.buf (e + delim.length)
    (e2 - b, true, st)
  else
    (1 + e - b, false, shiftIfEscaped cfg st e)

/-- The body of one iteration of the `splitter::read_normal` loop;
`recur` stands for the jump back to the loop head. -/
def readNormalStep (cfg : SplitCfg) (delim : List Char)
    (recur : SplitState → SplitState) (st : SplitState) : SplitState :=
  let r := matchDelimiter cfg delim st st.endIdx
  let width := r.1
  let valid := r.2.1
  let st1 := r.2.2
  if valid then
    shiftPushAndStartNext st1 width
  else if width == 0 then
    let st2 := shiftAndPush st1
    { st2 with done := true }
  else
    recur { st1 with endIdx := st1.endIdx + width }

/-- The loop of `splitter::read_normal`, with explicit fuel (each
iteration advances `end_` by at least one byte, so `buf.length + 2`
steps of fuel always suffice). -/
def readNormal (cfg : SplitCfg) (delim : List Char) : Nat → SplitState → SplitState
  | 0, st => st
  | fuel + 1, st => readNormalStep cfg delim (readNormal cfg delim fuel) st

/-- The body of one iteration of the `splitter::read_quoted` loop;
`recur` stands for the jump back to the loop head.  The body of the C
function is compiled only when quoting is enabled and the function is
only invoked in that case, which is why the quote matcher is consulted
directly. -/
def readQuotedStep (cfg : SplitCfg) (delim : List Char)
    (recur : SplitState → SplitState) (st : SplitState) : SplitState :=
  if quoteMatch cfg.quote (getc st.buf st.endIdx) then
    let r := matchDelimiter cfg delim st (st.endIdx + 1)
    let width := r.1
    let valid := r.2.1
    let st1 := r.2.2
    if valid then
      shiftPushAndStartNext st1 (width + 1)
    else if quoteMatch cfg.quote (getc st1.buf (st1.endIdx + 1)) then
      let st2 := shiftAndJumpEscape st1
      recur { st2 with endIdx := st2.endIdx + 1 }
    else if width == 0 then
      let st2 := shiftAndPush st1
      { st2 with done := true }
    else
      { st1 with
        error := some (.mismatchedQuote st1.endIdx)
        splitData := st1.splitData ++ [(0, st1.beginIdx)]
        done := true }
  else
    if matcherMatch cfg.escape (getc st.buf st.endIdx) then
      if getc st.buf (st.endIdx + 1) == nulChar then
        { st with error := some .unterminatedEscape, done := true }
      else
        let st2 := shiftAndJumpEscape st
        recur { st2 with endIdx := st2.endIdx + 1 }
    else if getc st.buf st.endIdx == nulChar then
      let st2 := shiftAndSetCurrent st
      { st2 with
        error := some .unterminatedQuote
        unterminatedQuote := true
        splitData := st2.splitData ++ [(0, st2.beginIdx)]
        done := true }
    else
      recur { st with endIdx := st.endIdx + 1 }

/-- The loop of `splitter::read_quoted`, with explicit fuel. -/
def readQuoted (cfg : SplitCfg) (delim : List Char) : Nat → SplitState → SplitState
  | 0, st => st
  | fuel + 1, st => readQuotedStep cfg delim (readQuoted cfg delim fuel) st

/-- `splitter::read(delim)`: reset the shift counter, then read one field
starting at `begin_`, choosing the quoted or the normal scanner (and the
multiline resumption entry when a suspended split is being resumed). -/
def readOne (cfg : SplitCfg) (delim : List Char) (fuel : Nat)
    (st0 : SplitState) : SplitState :=
  let st := { st0 with escaped := 0 }
  if cfg.quote.isSome then
    if cfg.multiline && st.resplitting then
      readQuoted cfg delim fuel
        { st with resplitting := false, beginIdx := st.beginIdx + 1 }
    else if quoteMatch cfg.quote (getc st.buf st.beginIdx) then
      let b := st.beginIdx + 1
      readQuoted cfg delim fuel { st with beginIdx := b, currIdx := b, endIdx := b }
    else
      readNormal cfg delim fuel { st with currIdx := st.beginIdx, endIdx := st.beginIdx }
  else
    readNormal cfg delim fuel { st with currIdx := st.beginIdx, endIdx := st.beginIdx }

/-- The driving loop of `splitter::split_impl`:
`for (done_ = false; !done_; read(delim));` with explicit fuel (each
field consumes at least one byte of the buffer, so `buf.length + 2`
steps always suffice). -/
def splitLoop (cfg : SplitCfg) (delim : List Char) : Nat → SplitState → SplitState
  | 0, st => st
  | fuel + 1, st =>
    if st.done then st
    else splitLoop cfg delim fuel (readOne cfg delim (st.buf.length + 2) st)

/-- `splitter::split_impl(delim)`. -/
def splitImpl (cfg : SplitCfg) (delim : List Char) (st : SplitState) : SplitState :=
  let st1 := { st with beginIdx := trimSkip cfg.trimLeft st.buf st.beginIdx, done := false }
  splitLoop cfg delim (st1.buf.length + 2) st1

/-- `splitter::split_impl_select_delim(delimiter)`: clear the error
state, reject an empty delimiter, and run the split.  (The size-one case
of the C `switch` merely selects the single-character overload of the
delimiter matching, whose semantics coincide with prefix matching.) -/
def splitImplSelectDelim (cfg : SplitCfg) (delim : List Char)
    (st : SplitState) : SplitState :=
  let st1 := { st with error := none, unterminatedQuote := false }
  if delim.length == 0 then { st1 with error := some .emptyDelimiter }
  else splitImpl cfg delim st1

/-- The freshly constructed splitter handed a new line: all counters at
the buffer base, no emitted ranges, no error. -/
def initState (line : List Char) : SplitState :=
  { buf := line, beginIdx := 0, currIdx := 0, endIdx := 0, escaped := 0
    splitData := [], error := none, unterminatedQuote := false, done := true
    resplitting := false }

/-- `splitter::split(new_line, delimiter)`. -/
def ssSplit (cfg : SplitCfg) (line : List Char) (delim : List Char) : SplitState :=
  splitImplSelectDelim cfg delim (initState line)

/-- `size_t` narrowing of the signed `ssize_t` size argument of
`resplit`. -/
def sizeTCast (n : Int) : Nat := (n % (2 ^ 64 : Int)).toNat

/-- `splitter::set_error_invalid_resplit`: records the invalid-resplit
error and clears the unterminated-quote condition. -/
def setErrorInvalidResplit (st : SplitState) : SplitState :=
  { st with unterminatedQuote := false, error := some .invalidResplit }

/-- `splitter::resplit(new_line, new_size, delimiter)`: resume a
suspended multiline split against the extended buffer `newLine`.
`adjust_ranges` rebases the emitted pointer pairs onto the new buffer
base, which leaves their index representation unchanged. -/
def resplit (cfg : SplitCfg) (st : SplitState) (newLine : List Char)
    (newSize : Int) (delim : List Char) : SplitState :=
  if cfg.quote.isNone || !cfg.multiline || st.splitData.isEmpty ||
      !st.unterminatedQuote then
    setErrorInvalidResplit st
  else
    let last := st.splitData.getLastD (0, 0)
    let bg := last.2 - last.1 - 1
    if newSize != -1 && sizeTCast newSize < bg then
      setErrorInvalidResplit st
    else
      let st1 := { st with
        splitData := st.splitData.dropLast
        buf := newLine
        beginIdx := bg
        endIdx := st.endIdx - st.escaped
        currIdx := st.endIdx - st.escaped
        resplitting := true }
      splitImplSelectDelim cfg delim st1

/-- The decoded content of an emitted field range: the bytes of the
(possibly shifted) record buffer between the range endpoints. -/
def rangeContent (buf : List Char) (r : Nat × Nat) : List Char :=
  (buf.drop r.1).take (r.2 - r.1)

/-- The field strings of a split, as read through the emitted ranges. -/
def fieldsOf (st : SplitState) : List (List Char) :=
  st.splitData.map (rangeContent st.buf)

/-- `converter::split(line, delim)`: clears the cached split data and
short-circuits an empty line to an empty split data before delegating to
the splitter. -/
def converterSplitData (cfg : SplitCfg) (line : List Char)
    (delim : List Char) : List (Nat × Nat) :=
  if getc line 0 == nulChar then [] else (ssSplit cfg line delim).splitData

/-- A configuration with every feature disabled. -/
def plainCfg : SplitCfg :=
  { quote := none, escape := [], trimLeft := [], trimRight := [], multiline := false }

example :
    fieldsOf (ssSplit plainCfg "a,b,c,d".toList [',']) =
      ["a".toList, "b".toList, "c".toList, "d".toList] := by decide

example :
    fieldsOf (ssSplit plainCfg " x x x x | x ".toList ['|']) =
      [" x x x x ".toList, " x ".toList] := by decide

example :
    fieldsOf (ssSplit plainCfg "x\t-\ty".toList "\t-\t".toList) =
      ["x".toList, "y".toList] := by decide

example : fieldsOf (ssSplit plainCfg [] [',']) = [[]] := by decide

example : converterSplitData plainCfg [] [','] = [] := by decide

/-- The trim scan lands exactly past the matcher-byte run that starts at
`i`. -/
theorem trimSkip_spec (m buf : List Char) (i : Nat) :
    trimSkip m buf i =
      i + ((buf.drop i).takeWhile (fun ch => matcherMatch m ch)).length := by
  have main : ∀ n i, buf.length - i = n →
      trimSkipAux m buf n i =
        i + ((buf.drop i).takeWhile (fun ch => matcherMatch m ch)).length := by
    intro n
    induction n with
    | zero =>
      intro i hi
      have hlen : buf.length ≤ i := by omega
      rw [List.drop_eq_nil_of_le hlen]
      simp [trimSkipAux]
    | succ n ih =>
      intro i hi
      have hlt : i < buf.length := by omega
      have hg : getc buf i = buf[i] := List.getD_eq_getElem buf nulChar hlt
      have hdrop : buf.drop i = buf[i] :: buf.drop (i + 1) :=
        List.drop_eq_getElem_cons hlt
      rw [trimSkipAux, if_pos hlt, hg]
      by_cases hm : matcherMatch m buf[i]
      · rw [if_pos hm, ih (i + 1) (by omega), hdrop]
        simp only [List.takeWhile_cons, hm, if_true, List.length_cons]
        omega
      · have hm' : matcherMatch m buf[i] = false := by simpa using hm
        rw [if_neg hm, hdrop, List.takeWhile_cons, hm']
        simp
  exact main _ i rfl

/-- Reading a byte through the null-padded view is reading the head of
the dropped suffix. -/
theorem getc_drop (buf : List Char) (i : Nat) :
    getc buf i = (buf.drop i).headD nulChar := by
  by_cases h : i < buf.length
  · rw [List.drop_eq_getElem_cons h]
    simp [getc, List.getD_eq_getElem buf nulChar h]
  · have hlen : buf.length ≤ i := by omega
    rw [List.drop_eq_nil_of_le hlen]
    unfold getc
    rw [List.getD_eq_default buf nulChar hlen]
    rfl

/-- The byte on which a `takeWhile` scan stops does not satisfy the
scanned predicate. -/
theorem takeWhile_stop {α : Type} (P : α → Bool) (l : List α)
    (h : (l.takeWhile P).length < l.length) :
    P (l[(l.takeWhile P).length]) = false := by
  induction l with
  | nil => simp at h
  | cons x xs ih =>
    by_cases hx : P x
    · simp only [List.takeWhile_cons, hx, if_pos] at h ⊢
      simpa using ih (by simpa using h)
    · simpa [List.takeWhile_cons, hx] using hx

/-- If the `takeWhile` scan swallows the whole list, every element
satisfies the predicate. -/
theorem takeWhile_all {α : Type} (P : α → Bool) (l : List α)
    (h : (l.takeWhile P).length = l.length) : ∀ x ∈ l, P x := by
  have := List.takeWhile_prefix (l := l) (p := P)
  have heq : l.takeWhile P = l := List.IsPrefix.eq_of_length this h
  rw [List.takeWhile_eq_self_iff] at heq
  exact heq

/-- A quoting configuration with no other features. -/
def quoteCfg : SplitCfg :=
  { quote := some '"', escape := [], trimLeft := [], trimRight := [], multiline := false }

example :
    fieldsOf (ssSplit quoteCfg "\"x,y\",z".toList [',']) =
      ["x,y".toList, "z".toList] := by decide

example :
    fieldsOf (ssSplit quoteCfg "\"x\"\"y\"".toList [',']) =
      ["x\"y".toList] := by decide

example :
    (ssSplit quoteCfg "\"x\"\"y\"".toList [',']).splitData = [(1, 4)] ∧
    (ssSplit quoteCfg "\"x\"\"y\"".toList [',']).buf = "\"x\"yy\"".toList := by decide

example :
    fieldsOf (ssSplit
      { quote := some '"', escape := [], trimLeft := [' '], trimRight := [' '],
        multiline := false } "\"x\"\"y\"".toList [',']) = ["x\"y".toList] := by decide

example :
    fieldsOf (ssSplit
      { quote := none, escape := ['\\'], trimLeft := [], trimRight := [],
        multiline := false } "a\\,b,c".toList [',']) =
      ["a,b".toList, "c".toList] := by decide

example :
    (ssSplit quoteCfg "\"a\"x,y".toList [',']).error = some (.mismatchedQuote 2) := by decide

example :
    (ssSplit { quoteCfg with multiline := true } "\"abc".toList [',']).error =
        some .unterminatedQuote ∧
      (ssSplit { quoteCfg with multiline := true } "\"abc".toList [',']).splitData =
        [(0, 1)] := by decide

/-! ### Basic facts about the trim scan -/

theorem trimSkipAux_stop (m buf : List Char) (fuel i : Nat)
    (h : i < buf.length → matcherMatch m (getc buf i) = false) :
    trimSkipAux m buf fuel i = i := by
  cases fuel with
  | zero => rfl
  | succ f =>
    unfold trimSkipAux
    by_cases hi : i < buf.length
    · simp [hi, h hi]
    · simp [hi]

theorem trimSkip_stop (m buf : List Char) (i : Nat)
    (h : i < buf.length → matcherMatch m (getc buf i) = false) :
    trimSkip m buf i = i :=
  trimSkipAux_stop m buf _ i h

/-- Unfolding of one fuelled iteration of the normal-scan loop. -/
theorem readNormal_succ (cfg : SplitCfg) (delim : List Char) (f : Nat)
    (st : SplitState) :
    readNormal cfg delim (f + 1) st =
      readNormalStep cfg delim (readNormal cfg delim f) st := rfl

/-- A fuelled loop with no fuel left returns its state unchanged. -/
theorem readNormal_zero (cfg : SplitCfg) (delim : List Char) (st : SplitState) :
    readNormal cfg delim 0 st = st := rfl

/-- Unfolding of one fuelled iteration of the quoted-scan loop. -/
theorem readQuoted_succ (cfg : SplitCfg) (delim : List Char) (f : Nat)
    (st : SplitState) :
    readQuoted cfg delim (f + 1) st =
      readQuotedStep cfg delim (readQuoted cfg delim f) st := rfl

/-- A fuelled loop with no fuel left returns its state unchanged. -/
theorem readQuoted_zero (cfg : SplitCfg) (delim : List Char) (st : SplitState) :
    readQuoted cfg delim 0 st = st := rfl

/-- Unfolding of one fuelled iteration of the split-impl driving loop. -/
theorem splitLoop_succ (cfg : SplitCfg) (delim : List Char) (f : Nat)
    (st : SplitState) :
    splitLoop cfg delim (f + 1) st =
      (if st.done then st
       else splitLoop cfg delim f (readOne cfg delim (st.buf.length + 2) st)) := rfl

/-- The driving loop with no fuel left returns its state unchanged. -/
theorem splitLoop_zero (cfg : SplitCfg) (delim : List Char) (st : SplitState) :
    splitLoop cfg delim 0 st = st := rfl

section IrreducibleSplitter

attribute [local irreducible] trimSkipAux readNormal readQuoted splitLoop

/-- One iteration of the split-impl driving loop on a state that is not
done yet. -/
theorem splitLoop_step (cfg : SplitCfg) (delim : List Char) (f : Nat)
    (st : SplitState) (h : st.done = false) :
    splitLoop cfg delim (f + 1) st =
      splitLoop cfg delim f (readOne cfg delim (st.buf.length + 2) st) := by
  rw [splitLoop_succ]
  simp [h]

/-- The split-impl driving loop stops on a done state. -/
theorem splitLoop_done (cfg : SplitCfg) (delim : List Char) (f : Nat)
    (st : SplitState) (h : st.done = true) : splitLoop cfg delim f st = st := by
  cases f with
  | zero => exact splitLoop_zero cfg delim st
  | succ f => rw [splitLoop_succ]; simp [h]

/-! ### C1: range count vs. delimiter count outside quoted regions -/

/-- Continuation of the specification-side counter once a delimiter has
been found ending at trim position `e`: skip the delimiter and the left
trim of the next field, count one occurrence, and restart the field
dispatch (a quote at the new field start opens a quoted region). -/
def countAfterDelim (cfg : SplitCfg) (delim line : List Char)
    (recur : Bool → Nat → Nat) (e : Nat) : Nat :=
  if quoteMatch cfg.quote (getc line (trimSkip cfg.trimLeft line (e + delim.length))) then
    1 + recur true (trimSkip cfg.trimLeft line (e + delim.length) + 1)
  else 1 + recur false (trimSkip cfg.trimLeft line (e + delim.length))

/-- Specification-side counter for "the number of delimiter occurrences
computed on the single physical line outside any quoted region", made
precise in the only way compatible with the splitter's field structure:
a quoted region is a quoted *field*, i.e. a quote opens a region exactly
at a field start (after left trimming), doubled quotes inside a region
do not close it, and the region closes at the quote preceding the next
delimiter (modulo trimming).  The scanner walks the raw line with no
state beyond the position and the inside-a-quoted-region flag. -/
def countScan (cfg : SplitCfg) (delim line : List Char) : Nat → Bool → Nat → Nat
  | 0, _, _ => 0
  | fuel + 1, false, i =>
    if getc line (trimSkip cfg.trimRight line i) == nulChar then 0
    else if delimAt delim line (trimSkip cfg.trimRight line i) then
      countAfterDelim cfg delim line (countScan cfg delim line fuel)
        (trimSkip cfg.trimRight line i)
    else countScan cfg delim line fuel false (trimSkip cfg.trimRight line i + 1)
  | fuel + 1, true, i =>
    if quoteMatch cfg.quote (getc line i) then
      (if getc line (trimSkip cfg.trimRight line (i + 1)) == nulChar then 0
       else if delimAt delim line (trimSkip cfg.trimRight line (i + 1)) then
         countAfterDelim cfg delim line (countScan cfg delim line fuel)
           (trimSkip cfg.trimRight line (i + 1))
       else if quoteMatch cfg.quote (getc line (i + 1)) then
         countScan cfg delim line fuel true (i + 2)
       else 0)
    else if getc line i == nulChar then 0
    else countScan cfg delim line fuel true (i + 1)

/-- Field-start dispatch of the counter: a quote at the start of a field
opens a quoted region, otherwise the field is scanned unquoted. -/
def countField (cfg : SplitCfg) (delim line : List Char) (fuel i : Nat) : Nat :=
  if quoteMatch cfg.quote (getc line i) then
    countScan cfg delim line fuel true (i + 1)
  else countScan cfg delim line fuel false i

/-- The delimiter count of a whole line, entered at the first field
start (i.e. after the initial left trim). -/
def countDelimsOutsideQuotes (cfg : SplitCfg) (delim line : List Char) : Nat :=
  countField cfg delim line (line.length + 2) (trimSkip cfg.trimLeft line 0)

theorem countScan_zero (cfg : SplitCfg) (delim line : List Char) (q : Bool)
    (i : Nat) : countScan cfg delim line 0 q i = 0 := by
  cases q <;> rfl

theorem countScan_succ_false (cfg : SplitCfg) (delim line : List Char)
    (fuel i : Nat) :
    countScan cfg delim line (fuel + 1) false i =
      (if getc line (trimSkip cfg.trimRight line i) == nulChar then 0
       else if delimAt delim line (trimSkip cfg.trimRight line i) then
         countAfterDelim cfg delim line (countScan cfg delim line fuel)
           (trimSkip cfg.trimRight line i)
       else countScan cfg delim line fuel false
         (trimSkip cfg.trimRight line i + 1)) := rfl

theorem countScan_succ_true (cfg : SplitCfg) (delim line : List Char)
    (fuel i : Nat) :
    countScan cfg delim line (fuel + 1) true i =
      (if quoteMatch cfg.quote (getc line i) then
        (if getc line (trimSkip cfg.trimRight line (i + 1)) == nulChar then 0
         else if delimAt delim line (trimSkip cfg.trimRight line (i + 1)) then
           countAfterDelim cfg delim line (countScan cfg delim line fuel)
             (trimSkip cfg.trimRight line (i + 1))
         else if quoteMatch cfg.quote (getc line (i + 1)) then
           countScan cfg delim line fuel true (i + 2)
         else 0)
      else if getc line i == nulChar then 0
      else countScan cfg delim line fuel true (i + 1)) := rfl

attribute [local irreducible] countScan

/-- The delimiter continuation is one occurrence plus a fresh field
dispatch after the delimiter and the left trim. -/
theorem countAfterDelim_eq (cfg : SplitCfg) (delim line : List Char)
    (fuel e : Nat) :
    countAfterDelim cfg delim line (countScan cfg delim line fuel) e =
      1 + countField cfg delim line fuel
        (trimSkip cfg.trimLeft line (e + delim.length)) := by
  unfold countAfterDelim countField
  split <;> rfl

/-- On a terminator-free line the null-byte test reads the end of the
buffer. -/
theorem getc_nul_iff (line : List Char) (hnn : nulChar ∉ line) (i : Nat) :
    (getc line i == nulChar) = decide (line.length ≤ i) := by
  rw [getc_drop]
  rcases hd : line.drop i with _ | ⟨c, rest⟩
  · have hlen : line.length ≤ i := by
      have := congrArg List.length hd
      simp at this
      omega
    simp [hlen]
  · have hlt : i < line.length := by
      have := congrArg List.length hd
      simp at this
      omega
    have hcm : c ∈ line := by
      have hm : c ∈ line.drop i := by
        rw [hd]
        exact List.mem_cons_self c rest
      exact List.drop_subset i line hm
    have hne : c ≠ nulChar := fun hc => hnn (hc ▸ hcm)
    have h1 : (c == nulChar) = false := by simpa using hne
    have h2 : decide (line.length ≤ i) = false := by
      simp
      omega
    simp [h1, h2]

/-- The trim scan never moves backwards. -/
theorem trimSkip_ge (m buf : List Char) (i : Nat) : i ≤ trimSkip m buf i := by
  rw [trimSkip_spec]
  omega

/-- The trim scan stays inside the buffer when it starts inside it. -/
theorem trimSkip_le (m buf : List Char) (i : Nat) (h : i ≤ buf.length) :
    trimSkip m buf i ≤ buf.length := by
  rw [trimSkip_spec]
  have h1 : ((buf.drop i).takeWhile (fun ch => matcherMatch m ch)).length ≤
      (buf.drop i).length := (List.takeWhile_sublist _).length_le
  have h2 : (buf.drop i).length = buf.length - i := List.length_drop i buf
  omega

/-- The counter does not depend on its fuel once the fuel covers the
rest of the line. -/
theorem countScan_congr (cfg : SplitCfg) (delim line : List Char)
    (hdne : delim ≠ []) (hq : quoteMatch cfg.quote nulChar = false)
    (hnn : nulChar ∉ line) :
    ∀ (meas i : Nat) (q : Bool) (f1 f2 : Nat),
      line.length + 1 - i = meas →
      line.length + 2 - i ≤ f1 → line.length + 2 - i ≤ f2 →
      countScan cfg delim line f1 q i = countScan cfg delim line f2 q i := by
  intro meas
  induction meas using Nat.strong_induction_on with
  | _ meas ih =>
    intro i q f1 f2 hmeas hf1 hf2
    have hdlen : 1 ≤ delim.length := by
      cases delim with
      | nil => cases hdne rfl
      | cons a l => simp
    by_cases hpast : line.length + 1 ≤ i
    · -- past the end both runs return 0 immediately
      have hgnul : getc line i = nulChar := List.getD_eq_default line nulChar (by omega)
      have hstep : ∀ f q2, countScan cfg delim line f q2 i = 0 := by
        intro f q2
        cases f with
        | zero => exact countScan_zero cfg delim line q2 i
        | succ f =>
          cases q2 with
          | false =>
            rw [countScan_succ_false]
            have he : trimSkip cfg.trimRight line i = i :=
              trimSkip_stop _ _ _ (by intro hlt; omega)
            rw [he, hgnul]
            simp
          | true =>
            rw [countScan_succ_true, hgnul, hq]
            simp
      rw [hstep f1 q, hstep f2 q]
    · -- inside the line: unfold one step on both sides and recurse
      obtain ⟨g1, rfl⟩ : ∃ g, f1 = g + 1 := ⟨f1 - 1, by omega⟩
      obtain ⟨g2, rfl⟩ : ∃ g, f2 = g + 1 := ⟨f2 - 1, by omega⟩
      have hrecField : ∀ e, i ≤ e → e ≤ line.length →
          countAfterDelim cfg delim line (countScan cfg delim line g1) e =
          countAfterDelim cfg delim line (countScan cfg delim line g2) e := by
        intro e hie hel
        have hjge : e + delim.length ≤ trimSkip cfg.trimLeft line (e + delim.length) :=
          trimSkip_ge _ _ _
        set j := trimSkip cfg.trimLeft line (e + delim.length) with hj
        unfold countAfterDelim
        rw [← hj]
        by_cases h3 : quoteMatch cfg.quote (getc line j) = true
        · rw [if_pos h3, if_pos h3]
          have := ih (line.length + 1 - (j + 1)) (by omega) (j + 1) true g1 g2
            rfl (by omega) (by omega)
          omega
        · rw [if_neg h3, if_neg h3]
          have := ih (line.length + 1 - j) (by omega) j false g1 g2
            rfl (by omega) (by omega)
          omega
      cases q with
      | false =>
        rw [countScan_succ_false, countScan_succ_false]
        have hie : i ≤ trimSkip cfg.trimRight line i := trimSkip_ge _ _ _
        have hel : trimSkip cfg.trimRight line i ≤ line.length :=
          trimSkip_le _ _ _ (by omega)
        set e := trimSkip cfg.trimRight line i with hesym
        by_cases h1 : (getc line e == nulChar) = true
        · rw [if_pos h1, if_pos h1]
        · rw [if_neg h1, if_neg h1]
          have hee : e < line.length := by
            rcases Nat.lt_or_ge e line.length with h | h
            · exact h
            · exact absurd (by rw [getc_nul_iff line hnn]; simpa using h) h1
          by_cases h2 : (delimAt delim line e) = true
          · rw [if_pos h2, if_pos h2]
            exact hrecField e hie hel
          · rw [if_neg h2, if_neg h2]
            exact ih (line.length + 1 - (e + 1)) (by omega) (e + 1) false g1 g2
              rfl (by omega) (by omega)
      | true =>
        rw [countScan_succ_true, countScan_succ_true]
        by_cases h0 : quoteMatch cfg.quote (getc line i) = true
        · rw [if_pos h0, if_pos h0]
          have hilt : i < line.length := by
            rcases Nat.lt_or_ge i line.length with h | h
            · exact h
            · exfalso
              have hg : getc line i = nulChar := List.getD_eq_default line nulChar h
              rw [hg, hq] at h0
              exact absurd h0 (by simp)
          have hie : i + 1 ≤ trimSkip cfg.trimRight line (i + 1) := trimSkip_ge _ _ _
          have hel : trimSkip cfg.trimRight line (i + 1) ≤ line.length :=
            trimSkip_le _ _ _ (by omega)
          set e := trimSkip cfg.trimRight line (i + 1) with hesym
          by_cases h1 : (getc line e == nulChar) = true
          · rw [if_pos h1, if_pos h1]
          · rw [if_neg h1, if_neg h1]
            by_cases h2 : (delimAt delim line e) = true
            · rw [if_pos h2, if_pos h2]
              exact hrecField e (by omega) hel
            · rw [if_neg h2, if_neg h2]
              by_cases h3 : quoteMatch cfg.quote (getc line (i + 1)) = true
              · rw [if_pos h3, if_pos h3]
                exact ih (line.length + 1 - (i + 2)) (by omega) (i + 2) true g1 g2
                  rfl (by omega) (by omega)
              · rw [if_neg h3, if_neg h3]
        · rw [if_neg h0, if_neg h0]
          by_cases h1 : (getc line i == nulChar) = true
          · rw [if_pos h1, if_pos h1]
          · rw [if_neg h1, if_neg h1]
            exact ih (line.length + 1 - (i + 1)) (by omega) (i + 1) true g1 g2
              rfl (by omega) (by omega)

/-- Fuel congruence at the field dispatch. -/
theorem countField_congr (cfg : SplitCfg) (delim line : List Char)
    (hdne : delim ≠ []) (hq : quoteMatch cfg.quote nulChar = false)
    (hnn : nulChar ∉ line) (i f1 f2 : Nat)
    (hf1 : line.length + 2 - i ≤ f1) (hf2 : line.length + 2 - i ≤ f2) :
    countField cfg delim line f1 i = countField cfg delim line f2 i := by
  unfold countField
  by_cases h : quoteMatch cfg.quote (getc line i) = true
  · rw [if_pos h, if_pos h]
    exact countScan_congr cfg delim line hdne hq hnn _ (i + 1) true f1 f2 rfl
      (by omega) (by omega)
  · rw [if_neg h, if_neg h]
    exact countScan_congr cfg delim line hdne hq hnn _ i false f1 f2 rfl hf1 hf2

/-! ### Buffer-agreement and shift lemmas for the counting proofs -/

/-- Two buffers that agree from index `k` agree from any later index. -/
theorem drop_agree {buf line : List Char} {k : Nat}
    (hag : buf.drop k = line.drop k) (i : Nat) (hki : k ≤ i) :
    buf.drop i = line.drop i := by
  have h1 : buf.drop i = (buf.drop k).drop (i - k) := by
    rw [List.drop_drop]
    congr 1
    omega
  have h2 : line.drop i = (line.drop k).drop (i - k) := by
    rw [List.drop_drop]
    congr 1
    omega
  rw [h1, h2, hag]

/-- Reads at or beyond the agreement point coincide. -/
theorem getc_agree {buf line : List Char} {k : Nat}
    (hag : buf.drop k = line.drop k) (i : Nat) (hki : k ≤ i) :
    getc buf i = getc line i := by
  rw [getc_drop, getc_drop, drop_agree hag i hki]

/-- Delimiter tests at or beyond the agreement point coincide. -/
theorem delimAt_agree (delim : List Char) {buf line : List Char} {k : Nat}
    (hag : buf.drop k = line.drop k) (i : Nat) (hki : k ≤ i) :
    delimAt delim buf i = delimAt delim line i := by
  unfold delimAt
  rw [drop_agree hag i hki]

/-- Trim scans starting at or beyond the agreement point coincide. -/
theorem trimSkip_agree (m : List Char) {buf line : List Char} {k : Nat}
    (hag : buf.drop k = line.drop k) (i : Nat) (hki : k ≤ i) :
    trimSkip m buf i = trimSkip m line i := by
  rw [trimSkip_spec, trimSkip_spec, drop_agree hag i hki]

/-- A successful delimiter match lies entirely inside the buffer. -/
theorem delimAt_le (delim buf : List Char) (i : Nat) (hdne : delim ≠ [])
    (h : delimAt delim buf i = true) : i + delim.length ≤ buf.length := by
  unfold delimAt at h
  have hp : delim <+: buf.drop i := List.isPrefixOf_iff_prefix.mp h
  have hl := hp.length_le
  rw [List.length_drop] at hl
  have hdl : 0 < delim.length := List.length_pos.mpr hdne
  omega

/-- A positive trim scan certifies that the scanned head byte is in the
trim set. -/
theorem trimSkip_gt_head (m buf : List Char) (j : Nat)
    (h : j < trimSkip m buf j) : matcherMatch m (getc buf j) = true := by
  rw [trimSkip_spec] at h
  rcases hd : buf.drop j with _ | ⟨c, rest⟩
  · rw [hd] at h
    simp at h
  · rw [hd] at h
    rw [getc_drop, hd]
    by_cases hp : matcherMatch m c = true
    · simpa using hp
    · rw [List.takeWhile_cons_of_neg (by simpa using hp)] at h
      simp at h

/-- Length preservation of the overlapping forward copy. -/
theorem copyDown_length (buf : List Char) (dst src n : Nat)
    (h1 : dst ≤ buf.length) (h2 : src + n ≤ buf.length)
    (h3 : dst + n ≤ buf.length) :
    (copyDown buf dst src n).length = buf.length := by
  unfold copyDown
  have e1 : (buf.take dst).length = dst := List.length_take_of_le h1
  have e2 : ((buf.drop src).take n).length = n :=
    List.length_take_of_le (by rw [List.length_drop]; omega)
  rw [List.length_append, List.length_append, e1, e2, List.length_drop]
  omega

/-- The overlapping forward copy does not change the buffer beyond the
copied region. -/
theorem copyDown_drop (buf : List Char) (dst src n : Nat)
    (h1 : dst ≤ buf.length) (h2 : src + n ≤ buf.length) (i : Nat)
    (hi : dst + n ≤ i) :
    (copyDown buf dst src n).drop i = buf.drop i := by
  unfold copyDown
  rw [List.drop_append_eq_append_drop, List.drop_append_eq_append_drop]
  have e1 : (buf.take dst).drop i = [] :=
    List.drop_eq_nil_of_le (by simp [List.length_take]; omega)
  have e2 : ((buf.drop src).take n).drop (i - (buf.take dst).length) = [] :=
    List.drop_eq_nil_of_le (by simp [List.length_take, List.length_drop]; omega)
  rw [e1, e2]
  simp only [List.nil_append]
  rw [List.drop_drop]
  congr 1
  simp [List.length_take, List.length_drop]
  omega

/-- Shape of `shift_and_set_current` under the cursor discipline: the
cursor lands at `end_ - escaped_` and the buffer is only changed below
that point. -/
theorem shiftAndSetCurrent_eq (st : SplitState)
    (hinv : st.currIdx + st.escaped ≤ st.endIdx)
    (hlen : st.endIdx ≤ st.buf.length) :
    ∃ buf2,
      shiftAndSetCurrent st =
        { st with buf := buf2, currIdx := st.endIdx - st.escaped } ∧
      buf2.length = st.buf.length ∧
      ∀ i, st.endIdx - st.escaped ≤ i → buf2.drop i = st.buf.drop i := by
  unfold shiftAndSetCurrent
  by_cases h : 0 < st.escaped
  · rw [if_pos h]
    refine ⟨copyDown st.buf st.currIdx (st.currIdx + st.escaped)
      (st.endIdx - st.currIdx - st.escaped), rfl,
      copyDown_length _ _ _ _ (by omega) (by omega) (by omega), ?_⟩
    intro i hi
    exact copyDown_drop _ _ _ _ (by omega) (by omega) i (by omega)
  · rw [if_neg h]
    have h0 : st.escaped = 0 := by omega
    refine ⟨st.buf, ?_, rfl, fun i _ => rfl⟩
    rw [h0]
    simp

/-- With the escape matcher disabled, `shift_if_escaped` is the
identity. -/
theorem shiftIfEscaped_nil (cfg : SplitCfg) (st : SplitState) (e : Nat)
    (hesc : cfg.escape = []) : shiftIfEscaped cfg st e = st := by
  unfold shiftIfEscaped
  rw [hesc]
  simp [matcherMatch]

/-- `read_normal` under a disabled escape matcher: the buffer is
untouched, exactly one range is emitted, and the number of delimiter
occurrences consumed matches the specification-side counter entered in
unquoted mode at the cursor. -/
theorem readNormal_count (cfg : SplitCfg) (delim line : List Char)
    (hesc : cfg.escape = []) (hdne : delim ≠ [])
    (hq : quoteMatch cfg.quote nulChar = false) (hnn : nulChar ∉ line) :
    ∀ (meas : Nat) (st : SplitState) (fuel : Nat),
      line.length + 1 - st.endIdx = meas →
      st.buf.length = line.length →
      st.buf.drop st.endIdx = line.drop st.endIdx →
      st.endIdx ≤ line.length →
      st.escaped = 0 →
      line.length + 2 - st.endIdx ≤ fuel →
      (readNormal cfg delim fuel st).buf = st.buf ∧
      (readNormal cfg delim fuel st).escaped = 0 ∧
      (readNormal cfg delim fuel st).error = st.error ∧
      (readNormal cfg delim fuel st).unterminatedQuote = st.unterminatedQuote ∧
      (readNormal cfg delim fuel st).resplitting = st.resplitting ∧
      (readNormal cfg delim fuel st).splitData.length = st.splitData.length + 1 ∧
      ((readNormal cfg delim fuel st).done = true ∧
          countScan cfg delim line (line.length + 2) false st.endIdx = 0 ∨
        (readNormal cfg delim fuel st).done = st.done ∧
          st.endIdx < (readNormal cfg delim fuel st).beginIdx ∧
          (readNormal cfg delim fuel st).beginIdx ≤ line.length ∧
          countScan cfg delim line (line.length + 2) false st.endIdx =
            1 + countField cfg delim line (line.length + 2)
              (readNormal cfg delim fuel st).beginIdx) := by
  intro meas
  induction meas using Nat.strong_induction_on with
  | _ meas ih =>
    intro st fuel hmeas hblen hag hele hesc0 hfuel
    obtain ⟨f, rfl⟩ : ∃ f, fuel = f + 1 := ⟨fuel - 1, by omega⟩
    obtain ⟨g, hLg⟩ : ∃ g, line.length + 2 = g + 1 := ⟨line.length + 1, rfl⟩
    have hdl : 1 ≤ delim.length := by
      cases delim with
      | nil => cases hdne rfl
      | cons a l => simp
    obtain ⟨e, hedef⟩ : ∃ x, trimSkip cfg.trimRight line st.endIdx = x := ⟨_, rfl⟩
    have htr : trimSkip cfg.trimRight st.buf st.endIdx = e := by
      rw [trimSkip_agree _ hag st.endIdx (le_refl _), hedef]
    have hege : st.endIdx ≤ e := by
      have := trimSkip_ge cfg.trimRight line st.endIdx
      omega
    have hele2 : e ≤ line.length := by
      have := trimSkip_le cfg.trimRight line st.endIdx hele
      omega
    by_cases hnul : (getc line e == nulChar) = true
    · -- the record ends here: one final field, scan count zero
      have _hnulkeep := hnul
      have hmd : matchDelimiter cfg delim st st.endIdx = (0, false, st) := by
        simp only [matchDelimiter]
        rw [htr, getc_agree hag e (by omega), hnul]
        simp
      have hsp : shiftAndPush st =
          { st with currIdx := st.endIdx
                    splitData := st.splitData ++ [(st.beginIdx, st.endIdx)] } := by
        unfold shiftAndPush shiftAndSetCurrent
        rw [hesc0]
        simp
      have hres : readNormal cfg delim (f + 1) st =
          { st with currIdx := st.endIdx
                    splitData := st.splitData ++ [(st.beginIdx, st.endIdx)]
                    done := true } := by
        rw [readNormal_succ]
        unfold readNormalStep
        rw [hmd]
        simp [hsp]
      have hcount : countScan cfg delim line (line.length + 2) false st.endIdx = 0 := by
        rw [hLg, countScan_succ_false, hedef, hnul]
        simp
      rw [hres]
      exact ⟨rfl, hesc0, rfl, rfl, rfl, by simp, Or.inl ⟨rfl, hcount⟩⟩
    · have heblt : e < line.length := by
        rcases Nat.lt_or_ge e line.length with h | h
        · exact h
        · exact absurd (by rw [getc_nul_iff line hnn]; simpa using h) hnul
      by_cases hda : delimAt delim line e = true
      · -- a delimiter ends the field: one range, a fresh field after it
        obtain ⟨e2, hedef2⟩ : ∃ x, trimSkip cfg.trimLeft line (e + delim.length) = x :=
          ⟨_, rfl⟩
        have hdle : e + delim.length ≤ line.length := delimAt_le delim line e hdne hda
        have he2ge : e + delim.length ≤ e2 := by
          have := trimSkip_ge cfg.trimLeft line (e + delim.length)
          omega
        have he2le : e2 ≤ line.length := by
          have := trimSkip_le cfg.trimLeft line (e + delim.length) hdle
          omega
        have hmd : matchDelimiter cfg delim st st.endIdx =
            (e2 - st.endIdx, true, st) := by
          simp only [matchDelimiter]
          rw [htr, getc_agree hag e (by omega), delimAt_agree delim hag e (by omega),
            trimSkip_agree cfg.trimLeft hag (e + delim.length) (by omega),
            hedef2, hda]
          simp only [hnul]
          simp
        have hsp : shiftPushAndStartNext st (e2 - st.endIdx) =
            { st with beginIdx := e2
                      currIdx := st.endIdx
                      splitData := st.splitData ++ [(st.beginIdx, st.endIdx)] } := by
          unfold shiftPushAndStartNext shiftAndPush shiftAndSetCurrent
          rw [hesc0]
          simp
          omega
        have hres : readNormal cfg delim (f + 1) st =
            { st with beginIdx := e2
                      currIdx := st.endIdx
                      splitData := st.splitData ++ [(st.beginIdx, st.endIdx)] } := by
          rw [readNormal_succ]
          unfold readNormalStep
          rw [hmd]
          simp [hsp]
        have hnulb : (getc line e == nulChar) = false := by simpa using hnul
        have hcount : countScan cfg delim line (line.length + 2) false st.endIdx =
            1 + countField cfg delim line (line.length + 2) e2 := by
          rw [hLg, countScan_succ_false, hedef]
          rw [if_neg (show ¬((getc line e == nulChar) = true) from hnul)]
          rw [if_pos hda]
          rw [countAfterDelim_eq, hedef2]
          have := countField_congr cfg delim line hdne hq hnn e2 g (g + 1)
            (by omega) (by omega)
          omega
        rw [hres]
        exact ⟨rfl, hesc0, rfl, rfl, rfl, by simp,
          Or.inr ⟨rfl, by simp; omega, by simpa using he2le, hcount⟩⟩
      · -- an ordinary byte: the cursor advances past the trim run
        have hmd : matchDelimiter cfg delim st st.endIdx =
            (1 + e - st.endIdx, false, st) := by
          simp only [matchDelimiter]
          rw [htr, getc_agree hag e (by omega), delimAt_agree delim hag e (by omega),
            shiftIfEscaped_nil cfg st e hesc]
          simp only [hnul, hda]
          simp
        have hw : (1 + e - st.endIdx == 0) = false := by
          simp
          omega
        have harith : st.endIdx + (1 + e - st.endIdx) = e + 1 := by omega
        have hres : readNormal cfg delim (f + 1) st =
            readNormal cfg delim f { st with endIdx := e + 1 } := by
          rw [readNormal_succ]
          unfold readNormalStep
          rw [hmd]
          simp only [hw]
          simp only [Bool.false_eq_true, if_false]
          rw [harith]
        have hih := ih (line.length + 1 - (e + 1)) (by omega)
          { st with endIdx := e + 1 } f rfl hblen
          (drop_agree hag (e + 1) (by omega))
          (show e + 1 ≤ line.length by omega) hesc0
          (show line.length + 2 - (e + 1) ≤ f by omega)
        obtain ⟨c1, c2, c3, c4, c5, c6, c7⟩ := hih
        have hnulb : (getc line e == nulChar) = false := by simpa using hnul
        have hdab : delimAt delim line e = false := by simpa using hda
        have hcount : countScan cfg delim line (line.length + 2) false st.endIdx =
            countScan cfg delim line (line.length + 2) false (e + 1) := by
          rw [hLg, countScan_succ_false, hedef, hnulb, hdab]
          simp only [Bool.false_eq_true, if_false]
          exact countScan_congr cfg delim line hdne hq hnn _ (e + 1) false g
            (g + 1) rfl (by omega) (by omega)
        rw [hres]
        refine ⟨c1, c2, c3, c4, c5, c6, ?_⟩
        rcases c7 with ⟨hd1, hd2⟩ | ⟨hd1, hd2, hd3, hd4⟩
        · exact Or.inl ⟨hd1, by rw [hcount]; exact hd2⟩
        · refine Or.inr ⟨hd1, by simp at hd2; omega, hd3, by rw [hcount]; exact hd4⟩

/-- `read_quoted` under a disabled escape matcher: the buffer keeps its
length, exactly one range is emitted, and either the field ends the
record (counter zero), or a delimiter was consumed and a fresh field
starts (counter one plus a fresh dispatch), or the splitter records an
error.  The cursor enters just behind the opening quote. -/
theorem readQuoted_count (cfg : SplitCfg) (delim line : List Char)
    (hesc : cfg.escape = []) (hdne : delim ≠ [])
    (hq : quoteMatch cfg.quote nulChar = false) (hnn : nulChar ∉ line)
    (hqtr : ∀ ch ∈ cfg.trimRight, quoteMatch cfg.quote ch = false) :
    ∀ (meas : Nat) (st : SplitState) (fuel : Nat),
      line.length + 1 - st.endIdx = meas →
      st.buf.length = line.length →
      st.buf.drop st.endIdx = line.drop st.endIdx →
      st.endIdx ≤ line.length →
      st.currIdx + st.escaped ≤ st.endIdx →
      line.length + 2 - st.endIdx ≤ fuel →
      (readQuoted cfg delim fuel st).buf.length = line.length ∧
      (readQuoted cfg delim fuel st).resplitting = st.resplitting ∧
      (readQuoted cfg delim fuel st).splitData.length = st.splitData.length + 1 ∧
      ((readQuoted cfg delim fuel st).done = true ∧
          (readQuoted cfg delim fuel st).error = st.error ∧
          (readQuoted cfg delim fuel st).unterminatedQuote = st.unterminatedQuote ∧
          countScan cfg delim line (line.length + 2) true st.endIdx = 0 ∨
        (readQuoted cfg delim fuel st).done = st.done ∧
          (readQuoted cfg delim fuel st).error = st.error ∧
          (readQuoted cfg delim fuel st).unterminatedQuote = st.unterminatedQuote ∧
          st.endIdx < (readQuoted cfg delim fuel st).beginIdx ∧
          (readQuoted cfg delim fuel st).beginIdx ≤ line.length ∧
          (readQuoted cfg delim fuel st).buf.drop
              (readQuoted cfg delim fuel st).beginIdx =
            line.drop (readQuoted cfg delim fuel st).beginIdx ∧
          countScan cfg delim line (line.length + 2) true st.endIdx =
            1 + countField cfg delim line (line.length + 2)
              (readQuoted cfg delim fuel st).beginIdx ∨
        (readQuoted cfg delim fuel st).done = true ∧
          (readQuoted cfg delim fuel st).error ≠ none) := by
  have hqtr2 : ∀ ch, quoteMatch cfg.quote ch = true →
      matcherMatch cfg.trimRight ch = false := by
    intro ch hch
    by_contra hcon
    have hmem : ch ∈ cfg.trimRight := by
      have : cfg.trimRight.contains ch = true := by
        unfold matcherMatch at hcon
        exact Bool.of_not_eq_false hcon
      simpa using this
    rw [hqtr ch hmem] at hch
    cases hch
  intro meas
  induction meas using Nat.strong_induction_on with
  | _ meas ih =>
    intro st fuel hmeas hblen hag hele hcurr hfuel
    obtain ⟨f, rfl⟩ : ∃ f, fuel = f + 1 := ⟨fuel - 1, by omega⟩
    obtain ⟨g, hLg⟩ : ∃ g, line.length + 2 = g + 1 := ⟨line.length + 1, rfl⟩
    have hdl : 1 ≤ delim.length := by
      cases delim with
      | nil => cases hdne rfl
      | cons a l => simp
    obtain ⟨buf2, hsc, hlen2, hag2⟩ :=
      shiftAndSetCurrent_eq st hcurr (by omega)
    have hgq0 : getc st.buf st.endIdx = getc line st.endIdx :=
      getc_agree hag st.endIdx (le_refl _)
    by_cases hq0 : quoteMatch cfg.quote (getc line st.endIdx) = true
    · -- a quote at the cursor: candidate end of the quoted region
      have hi0lt : st.endIdx < line.length := by
        rcases Nat.lt_or_ge st.endIdx line.length with h | h
        · exact h
        · exfalso
          have hgnul : getc line st.endIdx = nulChar :=
            List.getD_eq_default line nulChar (by omega)
          rw [hgnul, hq] at hq0
          cases hq0
      obtain ⟨e, hedef⟩ : ∃ x, trimSkip cfg.trimRight line (st.endIdx + 1) = x :=
        ⟨_, rfl⟩
      have htr : trimSkip cfg.trimRight st.buf (st.endIdx + 1) = e := by
        rw [trimSkip_agree _ hag (st.endIdx + 1) (by omega), hedef]
      have hege : st.endIdx + 1 ≤ e := by
        have := trimSkip_ge cfg.trimRight line (st.endIdx + 1)
        omega
      have hele2 : e ≤ line.length := by
        have := trimSkip_le cfg.trimRight line (st.endIdx + 1) (by omega)
        omega
      have hgq1 : getc st.buf (st.endIdx + 1) = getc line (st.endIdx + 1) :=
        getc_agree hag (st.endIdx + 1) (by omega)
      by_cases hnul : (getc line e == nulChar) = true
      · -- the record ends right after the closing quote
        have hq1 : ¬(quoteMatch cfg.quote (getc line (st.endIdx + 1)) = true) := by
          intro hcon
          by_cases he1 : e = st.endIdx + 1
          · have : getc line (st.endIdx + 1) = nulChar := by
              rw [← he1]
              simpa using hnul
            rw [this, hq] at hcon
            cases hcon
          · have hgt := trimSkip_gt_head cfg.trimRight line (st.endIdx + 1)
              (by omega)
            rw [hqtr2 _ hcon] at hgt
            cases hgt
        have hmd : matchDelimiter cfg delim st (st.endIdx + 1) = (0, false, st) := by
          simp only [matchDelimiter]
          rw [htr, getc_agree hag e (by omega), hnul]
          simp
        have hsp : shiftAndPush st =
            { st with buf := buf2
                      currIdx := st.endIdx - st.escaped
                      splitData := st.splitData ++
                        [(st.beginIdx, st.endIdx - st.escaped)] } := by
          unfold shiftAndPush
          rw [hsc]
        have hres : readQuoted cfg delim (f + 1) st =
            { st with buf := buf2
                      currIdx := st.endIdx - st.escaped
                      splitData := st.splitData ++
                        [(st.beginIdx, st.endIdx - st.escaped)]
                      done := true } := by
          rw [readQuoted_succ]
          unfold readQuotedStep
          rw [hgq0, if_pos hq0, hmd]
          simp only []
          rw [hgq1, if_neg hq1]
          simp [hsp]
        have hcount : countScan cfg delim line (line.length + 2) true st.endIdx
            = 0 := by
          rw [hLg, countScan_succ_true, if_pos hq0, hedef, if_pos hnul]
        rw [hres]
        exact ⟨by simpa using hlen2 ▸ hblen, rfl, by simp,
          Or.inl ⟨rfl, rfl, rfl, hcount⟩⟩
      · have heblt : e < line.length := by
          rcases Nat.lt_or_ge e line.length with h | h
          · exact h
          · exact absurd (by rw [getc_nul_iff line hnn]; simpa using h) hnul
        by_cases hda : delimAt delim line e = true
        · -- a delimiter after the closing quote: the field is emitted
          obtain ⟨e2, hedef2⟩ :
              ∃ x, trimSkip cfg.trimLeft line (e + delim.length) = x := ⟨_, rfl⟩
          have hdle : e + delim.length ≤ line.length :=
            delimAt_le delim line e hdne hda
          have he2ge : e + delim.length ≤ e2 := by
            have := trimSkip_ge cfg.trimLeft line (e + delim.length)
            omega
          have he2le : e2 ≤ line.length := by
            have := trimSkip_le cfg.trimLeft line (e + delim.length) hdle
            omega
          have hmd : matchDelimiter cfg delim st (st.endIdx + 1) =
              (e2 - (st.endIdx + 1), true, st) := by
            simp only [matchDelimiter]
            rw [htr, getc_agree hag e (by omega),
              delimAt_agree delim hag e (by omega),
              trimSkip_agree cfg.trimLeft hag (e + delim.length) (by omega),
              hedef2, hda]
            simp only [hnul]
            simp
          have hsp : shiftPushAndStartNext st (e2 - (st.endIdx + 1) + 1) =
              { st with buf := buf2
                        beginIdx := e2
                        currIdx := st.endIdx - st.escaped
                        splitData := st.splitData ++
                          [(st.beginIdx, st.endIdx - st.escaped)] } := by
            unfold shiftPushAndStartNext shiftAndPush
            rw [hsc]
            simp
            omega
          have hres : readQuoted cfg delim (f + 1) st =
              { st with buf := buf2
                        beginIdx := e2
                        currIdx := st.endIdx - st.escaped
                        splitData := st.splitData ++
                          [(st.beginIdx, st.endIdx - st.escaped)] } := by
            rw [readQuoted_succ]
            unfold readQuotedStep
            rw [hgq0, if_pos hq0, hmd]
            simp [hsp]
          have hcount : countScan cfg delim line (line.length + 2) true st.endIdx
              = 1 + countField cfg delim line (line.length + 2) e2 := by
            rw [hLg, countScan_succ_true, if_pos hq0, hedef]
            rw [if_neg (show ¬((getc line e == nulChar) = true) from hnul)]
            rw [if_pos hda, countAfterDelim_eq, hedef2]
            have := countField_congr cfg delim line hdne hq hnn e2 g (g + 1)
              (by omega) (by omega)
            omega
          have hagb : buf2.drop e2 = line.drop e2 := by
            rw [hag2 e2 (by omega)]
            exact drop_agree hag e2 (by omega)
          rw [hres]
          refine ⟨by simpa using hlen2 ▸ hblen, rfl, by simp, Or.inr (Or.inl
            ⟨rfl, rfl, rfl, by simp; omega, by simpa using he2le,
             by simpa using hagb, hcount⟩)⟩
        · by_cases hq1 : quoteMatch cfg.quote (getc line (st.endIdx + 1)) = true
          · -- a doubled quote: the escape shift elides one byte and the
            -- quoted region continues two bytes further
            have he1 : e = st.endIdx + 1 := by
              by_contra hne
              have hgt := trimSkip_gt_head cfg.trimRight line (st.endIdx + 1)
                (by omega)
              rw [hqtr2 _ hq1] at hgt
              cases hgt
            have hi1lt : st.endIdx + 1 < line.length := by
              rcases Nat.lt_or_ge (st.endIdx + 1) line.length with h | h
              · exact h
              · exfalso
                have hgnul : getc line (st.endIdx + 1) = nulChar :=
                  List.getD_eq_default line nulChar (by omega)
                rw [hgnul, hq] at hq1
                cases hq1
            have hmd : matchDelimiter cfg delim st (st.endIdx + 1) =
                (1 + e - (st.endIdx + 1), false, st) := by
              simp only [matchDelimiter]
              rw [htr, getc_agree hag e (by omega),
                delimAt_agree delim hag e (by omega),
                shiftIfEscaped_nil cfg st e hesc]
              simp only [hnul, hda]
              simp
            have hsj : shiftAndJumpEscape st =
                { st with buf := buf2
                          currIdx := st.endIdx - st.escaped
                          escaped := st.escaped + 1
                          endIdx := st.endIdx + 1 } := by
              unfold shiftAndJumpEscape
              rw [hsc]
            have hres : readQuoted cfg delim (f + 1) st =
                readQuoted cfg delim f
                  { st with buf := buf2
                            currIdx := st.endIdx - st.escaped
                            escaped := st.escaped + 1
                            endIdx := st.endIdx + 2 } := by
              rw [readQuoted_succ]
              unfold readQuotedStep
              rw [hgq0, if_pos hq0, hmd]
              simp only []
              rw [hgq1, if_pos hq1, hsj]
              simp
            have hblen2 : buf2.length = line.length := by
              rw [hlen2, hblen]
            have hagr : buf2.drop (st.endIdx + 2) = line.drop (st.endIdx + 2) := by
              rw [hag2 _ (by omega)]
              exact drop_agree hag _ (by omega)
            have hih := ih (line.length + 1 - (st.endIdx + 2)) (by omega)
              { st with buf := buf2
                        currIdx := st.endIdx - st.escaped
                        escaped := st.escaped + 1
                        endIdx := st.endIdx + 2 } f rfl hblen2 hagr
              (show st.endIdx + 2 ≤ line.length by omega)
              (show st.endIdx - st.escaped + (st.escaped + 1) ≤ st.endIdx + 2
                by omega)
              (show line.length + 2 - (st.endIdx + 2) ≤ f by omega)
            have hcount : countScan cfg delim line (line.length + 2) true
                st.endIdx =
                countScan cfg delim line (line.length + 2) true (st.endIdx + 2) := by
              rw [hLg, countScan_succ_true, if_pos hq0, hedef]
              rw [if_neg (show ¬((getc line e == nulChar) = true) from hnul)]
              rw [if_neg (show ¬(delimAt delim line e = true) from hda)]
              rw [if_pos hq1]
              exact countScan_congr cfg delim line hdne hq hnn _ (st.endIdx + 2)
                true g (g + 1) rfl (by omega) (by omega)
            rw [hres]
            obtain ⟨c1, c2, c3, c4⟩ := hih
            refine ⟨c1, c2, by simpa using c3, ?_⟩
            rcases c4 with ⟨d1, d2, d3, d4⟩ | ⟨d1, d2, d3, d4, d5, d6, d7⟩ | ⟨d1, d2⟩
            · exact Or.inl ⟨d1, d2, d3, by rw [hcount]; simpa using d4⟩
            · refine Or.inr (Or.inl ⟨d1, d2, d3, by simp at d4; omega, d5, d6,
                by rw [hcount]; simpa using d7⟩)
            · exact Or.inr (Or.inr ⟨d1, d2⟩)
          · -- neither delimiter nor doubled quote after the closing quote:
            -- the mismatched-quote error
            have hmd : matchDelimiter cfg delim st (st.endIdx + 1) =
                (1 + e - (st.endIdx + 1), false, st) := by
              simp only [matchDelimiter]
              rw [htr, getc_agree hag e (by omega),
                delimAt_agree delim hag e (by omega),
                shiftIfEscaped_nil cfg st e hesc]
              simp only [hnul, hda]
              simp
            have hw : ((1 + e - (st.endIdx + 1)) == 0) = false := by
              simp
              omega
            have hres : readQuoted cfg delim (f + 1) st =
                { st with error := some (.mismatchedQuote st.endIdx)
                          splitData := st.splitData ++ [(0, st.beginIdx)]
                          done := true } := by
              rw [readQuoted_succ]
              unfold readQuotedStep
              rw [hgq0, if_pos hq0, hmd]
              simp only []
              rw [hgq1, if_neg hq1, hw]
              simp
            rw [hres]
            exact ⟨hblen, rfl, by simp, Or.inr (Or.inr ⟨rfl, by simp⟩)⟩
    · -- no quote at the cursor: an ordinary quoted byte or the
      -- unterminated-quote condition
      by_cases hnul0 : (getc line st.endIdx == nulChar) = true
      · -- the line ends inside the quoted field
        have hres : readQuoted cfg delim (f + 1) st =
            { st with buf := buf2
                      currIdx := st.endIdx - st.escaped
                      error := some .unterminatedQuote
                      unterminatedQuote := true
                      splitData := st.splitData ++ [(0, st.beginIdx)]
                      done := true } := by
          rw [readQuoted_succ]
          unfold readQuotedStep
          rw [hgq0, if_neg hq0, hesc]
          simp only [matcherMatch, List.contains_nil, Bool.false_eq_true,
            if_false]
          rw [hnul0, hsc]
          simp
        rw [hres]
        exact ⟨by simpa using hlen2 ▸ hblen, rfl, by simp,
          Or.inr (Or.inr ⟨rfl, by simp⟩)⟩
      · -- an ordinary byte inside the quoted region
        have hi0lt : st.endIdx < line.length := by
          rcases Nat.lt_or_ge st.endIdx line.length with h | h
          · exact h
          · exact absurd (by rw [getc_nul_iff line hnn]; simpa using h) hnul0
        have hres : readQuoted cfg delim (f + 1) st =
            readQuoted cfg delim f { st with endIdx := st.endIdx + 1 } := by
          rw [readQuoted_succ]
          unfold readQuotedStep
          rw [hgq0, if_neg hq0, hesc]
          simp only [matcherMatch, List.contains_nil, Bool.false_eq_true,
            if_false]
          rw [if_neg hnul0]
        have hih := ih (line.length + 1 - (st.endIdx + 1)) (by omega)
          { st with endIdx := st.endIdx + 1 } f rfl hblen
          (drop_agree hag (st.endIdx + 1) (by omega))
          (show st.endIdx + 1 ≤ line.length by omega)
          (show st.currIdx + st.escaped ≤ st.endIdx + 1 by omega)
          (show line.length + 2 - (st.endIdx + 1) ≤ f by omega)
        have hcount : countScan cfg delim line (line.length + 2) true st.endIdx =
            countScan cfg delim line (line.length + 2) true (st.endIdx + 1) := by
          rw [hLg, countScan_succ_true, if_neg hq0]
          rw [if_neg (show ¬((getc line st.endIdx == nulChar) = true) from hnul0)]
          exact countScan_congr cfg delim line hdne hq hnn _ (st.endIdx + 1)
            true g (g + 1) rfl (by omega) (by omega)
        rw [hres]
        obtain ⟨c1, c2, c3, c4⟩ := hih
        refine ⟨c1, c2, by simpa using c3, ?_⟩
        rcases c4 with ⟨d1, d2, d3, d4⟩ | ⟨d1, d2, d3, d4, d5, d6, d7⟩ | ⟨d1, d2⟩
        · exact Or.inl ⟨d1, d2, d3, by rw [hcount]; simpa using d4⟩
        · refine Or.inr (Or.inl ⟨d1, d2, d3, by simp at d4; omega, d5, d6,
            by rw [hcount]; simpa using d7⟩)
        · exact Or.inr (Or.inr ⟨d1, d2⟩)

/-- The driving loop of `split_impl`, counted: starting at a field start
with no prior error, an error-free run emits one range per field, i.e.
one plus the number of delimiter occurrences outside quoted regions from
the current field start. -/
theorem splitLoop_count (cfg : SplitCfg) (delim line : List Char)
    (hesc : cfg.escape = []) (hdne : delim ≠ [])
    (hq : quoteMatch cfg.quote nulChar = false) (hnn : nulChar ∉ line)
    (hqtr : ∀ ch ∈ cfg.trimRight, quoteMatch cfg.quote ch = false) :
    ∀ (meas : Nat) (st : SplitState) (fuel : Nat),
      line.length + 1 - st.beginIdx = meas →
      st.buf.length = line.length →
      st.buf.drop st.beginIdx = line.drop st.beginIdx →
      st.beginIdx ≤ line.length →
      st.resplitting = false →
      st.done = false →
      line.length + 2 - st.beginIdx ≤ fuel →
      (splitLoop cfg delim fuel st).error = none →
      (splitLoop cfg delim fuel st).splitData.length =
        st.splitData.length + 1 +
          countField cfg delim line (line.length + 2) st.beginIdx := by
  intro meas
  induction meas using Nat.strong_induction_on with
  | _ meas ih =>
    intro st fuel hmeas hblen hag hble hres0 hdone hfuel herr
    obtain ⟨f, rfl⟩ : ∃ f, fuel = f + 1 := ⟨fuel - 1, by omega⟩
    rw [splitLoop_step cfg delim f st hdone] at herr ⊢
    have hgb : getc st.buf st.beginIdx = getc line st.beginIdx :=
      getc_agree hag st.beginIdx (le_refl _)
    by_cases hqb : quoteMatch cfg.quote (getc line st.beginIdx) = true
    · -- the field starts with a quote: the quoted reader takes over
      have hsome : cfg.quote.isSome = true := by
        cases hv : cfg.quote with
        | none =>
          rw [hv] at hqb
          cases hqb
        | some qc => rfl
      have hblt : st.beginIdx < line.length := by
        rcases Nat.lt_or_ge st.beginIdx line.length with h | h
        · exact h
        · exfalso
          have hgnul : getc line st.beginIdx = nulChar :=
            List.getD_eq_default line nulChar (by omega)
          rw [hgnul, hq] at hqb
          cases hqb
      have hro : readOne cfg delim (st.buf.length + 2) st =
          readQuoted cfg delim (st.buf.length + 2)
            { st with escaped := 0
                      beginIdx := st.beginIdx + 1
                      currIdx := st.beginIdx + 1
                      endIdx := st.beginIdx + 1 } := by
        unfold readOne
        rw [hsome]
        simp only [hres0, Bool.and_false, Bool.false_eq_true, if_false,
          if_true]
        rw [hgb, if_pos hqb]
      have hinner := readQuoted_count cfg delim line hesc hdne hq hnn hqtr
        (line.length + 1 - (st.beginIdx + 1))
        { st with escaped := 0
                  beginIdx := st.beginIdx + 1
                  currIdx := st.beginIdx + 1
                  endIdx := st.beginIdx + 1 } (st.buf.length + 2) rfl hblen
        (drop_agree hag (st.beginIdx + 1) (by omega))
        (show st.beginIdx + 1 ≤ line.length by omega)
        (show st.beginIdx + 1 + 0 ≤ st.beginIdx + 1 by omega)
        (show line.length + 2 - (st.beginIdx + 1) ≤ st.buf.length + 2 by omega)
      rw [hro] at herr ⊢
      obtain ⟨c1, c2, c3, c4⟩ := hinner
      simp only [] at c2 c3
      have hcf : countField cfg delim line (line.length + 2) st.beginIdx =
          countScan cfg delim line (line.length + 2) true (st.beginIdx + 1) := by
        unfold countField
        rw [if_pos hqb]
      rcases c4 with ⟨d1, d2, d3, d4⟩ | ⟨d1, d2, d3, d4, d5, d6, d7⟩ | ⟨d1, d2⟩
      · rw [splitLoop_done cfg delim f _ d1] at herr ⊢
        simp only [] at d4
        rw [c3, hcf, d4]
      · have hrdone : (readQuoted cfg delim (st.buf.length + 2)
            { st with escaped := 0
                      beginIdx := st.beginIdx + 1
                      currIdx := st.beginIdx + 1
                      endIdx := st.beginIdx + 1 }).done = false := by
          rw [d1]
          exact hdone
        simp only [] at d4 d7
        have hrec := ih (line.length + 1 -
            (readQuoted cfg delim (st.buf.length + 2)
              { st with escaped := 0
                        beginIdx := st.beginIdx + 1
                        currIdx := st.beginIdx + 1
                        endIdx := st.beginIdx + 1 }).beginIdx)
          (by omega) _ f rfl c1 d6 d5 (by rw [c2]; exact hres0) hrdone (by omega) herr
        rw [hrec, c3, hcf, d7]
        omega
      · rw [splitLoop_done cfg delim f _ d1] at herr ⊢
        exact absurd herr d2
    · -- no quote at the field start: the normal reader takes over
      have hro : readOne cfg delim (st.buf.length + 2) st =
          readNormal cfg delim (st.buf.length + 2)
            { st with escaped := 0
                      currIdx := st.beginIdx
                      endIdx := st.beginIdx } := by
        unfold readOne
        by_cases hos : cfg.quote.isSome = true
        · rw [hos]
          simp only [hres0, Bool.and_false, Bool.false_eq_true, if_false,
            if_true]
          rw [hgb, if_neg hqb]
        · rw [show cfg.quote.isSome = false by simpa using hos]
          simp
      have hinner := readNormal_count cfg delim line hesc hdne hq hnn
        (line.length + 1 - st.beginIdx)
        { st with escaped := 0
                  currIdx := st.beginIdx
                  endIdx := st.beginIdx } (st.buf.length + 2) rfl hblen hag
        (show st.beginIdx ≤ line.length from hble) rfl
        (show line.length + 2 - st.beginIdx ≤ st.buf.length + 2 by omega)
      rw [hro] at herr ⊢
      obtain ⟨n1, n2, n3, n4, n5, n6, n7⟩ := hinner
      simp only [] at n1 n3 n5 n6
      have hcf : countField cfg delim line (line.length + 2) st.beginIdx =
          countScan cfg delim line (line.length + 2) false st.beginIdx := by
        unfold countField
        rw [if_neg hqb]
      rcases n7 with ⟨d1, d2⟩ | ⟨d1, d2, d3, d4⟩
      · rw [splitLoop_done cfg delim f _ d1] at herr ⊢
        simp only [] at d2
        rw [n6, hcf, d2]
      · have hrdone : (readNormal cfg delim (st.buf.length + 2)
            { st with escaped := 0
                      currIdx := st.beginIdx
                      endIdx := st.beginIdx }).done = false := by
          rw [d1]
          exact hdone
        simp only [] at d2 d4
        have hagr : (readNormal cfg delim (st.buf.length + 2)
            { st with escaped := 0
                      currIdx := st.beginIdx
                      endIdx := st.beginIdx }).buf.drop
              (readNormal cfg delim (st.buf.length + 2)
                { st with escaped := 0
                          currIdx := st.beginIdx
                          endIdx := st.beginIdx }).beginIdx =
            line.drop (readNormal cfg delim (st.buf.length + 2)
              { st with escaped := 0
                        currIdx := st.beginIdx
                        endIdx := st.beginIdx }).beginIdx := by
          rw [n1]
          exact drop_agree hag _ (by omega)
        have hrec := ih (line.length + 1 -
            (readNormal cfg delim (st.buf.length + 2)
              { st with escaped := 0
                        currIdx := st.beginIdx
                        endIdx := st.beginIdx }).beginIdx)
          (by omega) _ f rfl (by rw [n1]; exact hblen) hagr d3
          (by rw [n5]; exact hres0) hrdone (by omega) herr
        rw [hrec, n6, hcf, d4]
        omega

/-- C1 (corrected): for a single-physical-line record split with a
nonempty delimiter under a configuration with no escape matcher, a quote
byte that is not the terminator and trim-right bytes that are not the
quote, an error-free split emits exactly one range more than the number
of delimiter occurrences outside quoted regions of the line (the
spec-side counter `countDelimsOutsideQuotes`), and the empty line yields
the single empty field `(0, 0)` at the splitter level.  The original
claim is corrected: it does not hold for configurations with an escape
matcher (an escaped delimiter is elided from the payload but still
counted by the spec-side reading), and `converter::split` maps the empty
line to zero ranges, not one. -/
theorem split_field_count (cfg : SplitCfg) (delim line : List Char)
    (hesc : cfg.escape = []) (hdne : delim ≠ [])
    (hq : quoteMatch cfg.quote nulChar = false) (hnn : nulChar ∉ line)
    (hqtr : ∀ ch ∈ cfg.trimRight, quoteMatch cfg.quote ch = false)
    (herr : (ssSplit cfg line delim).error = none) :
    (ssSplit cfg line delim).splitData.length =
      1 + countDelimsOutsideQuotes cfg delim line ∧
    (line = [] → (ssSplit cfg line delim).splitData = [(0, 0)]) := by
  have hdl0 : (delim.length == 0) = false := by
    cases delim with
    | nil => cases hdne rfl
    | cons a l => simp
  have key : ssSplit cfg line delim =
      splitLoop cfg delim (line.length + 2)
        { buf := line
          beginIdx := trimSkip cfg.trimLeft line 0
          currIdx := 0
          endIdx := 0
          escaped := 0
          splitData := []
          error := none
          unterminatedQuote := false
          done := false
          resplitting := false } := by
    unfold ssSplit splitImplSelectDelim splitImpl initState
    rw [hdl0]
    simp only [Bool.false_eq_true, if_false]
  constructor
  · rw [key] at herr ⊢
    have hble : trimSkip cfg.trimLeft line 0 ≤ line.length :=
      trimSkip_le cfg.trimLeft line 0 (by omega)
    have hmain := splitLoop_count cfg delim line hesc hdne hq hnn hqtr
      (line.length + 1 - trimSkip cfg.trimLeft line 0)
      { buf := line
        beginIdx := trimSkip cfg.trimLeft line 0
        currIdx := 0
        endIdx := 0
        escaped := 0
        splitData := []
        error := none
        unterminatedQuote := false
        done := false
        resplitting := false } (line.length + 2) rfl rfl rfl hble rfl rfl
      (show line.length + 2 - trimSkip cfg.trimLeft line 0 ≤ line.length + 2
        by omega) herr
    unfold countDelimsOutsideQuotes
    rw [hmain]
    simp
  · intro hl0
    subst hl0
    have htn : ∀ (m : List Char) (i : Nat), trimSkip m [] i = i := by
      intro m i
      exact trimSkip_stop m [] i (by intro h; simp at h)
    have hg0 : getc ([] : List Char) 0 = nulChar :=
      List.getD_eq_default _ _ (by simp)
    rw [key, htn]
    have hro : readOne cfg delim (2 : Nat)
        { buf := ([] : List Char)
          beginIdx := 0
          currIdx := 0
          endIdx := 0
          escaped := 0
          splitData := []
          error := none
          unterminatedQuote := false
          done := false
          resplitting := false } =
        readNormal cfg delim 2
          { buf := ([] : List Char)
            beginIdx := 0
            currIdx := 0
            endIdx := 0
            escaped := 0
            splitData := []
            error := none
            unterminatedQuote := false
            done := false
            resplitting := false } := by
      unfold readOne
      by_cases hos : cfg.quote.isSome = true
      · rw [hos]
        simp only [Bool.and_false, Bool.false_eq_true, if_false, if_true]
        rw [show getc ([] : List Char) 0 = nulChar from hg0, hq]
        simp
      · rw [show cfg.quote.isSome = false by simpa using hos]
        simp
    have hmd : matchDelimiter cfg delim
        { buf := ([] : List Char)
          beginIdx := 0
          currIdx := 0
          endIdx := 0
          escaped := 0
          splitData := []
          error := none
          unterminatedQuote := false
          done := false
          resplitting := false } 0 =
        (0, false,
          { buf := ([] : List Char)
            beginIdx := 0
            currIdx := 0
            endIdx := 0
            escaped := 0
            splitData := []
            error := none
            unterminatedQuote := false
            done := false
            resplitting := false }) := by
      simp only [matchDelimiter]
      rw [htn, hg0]
      simp
    have hrn : readNormal cfg delim 2
        { buf := ([] : List Char)
          beginIdx := 0
          currIdx := 0
          endIdx := 0
          escaped := 0
          splitData := []
          error := none
          unterminatedQuote := false
          done := false
          resplitting := false } =
        { buf := ([] : List Char)
          beginIdx := 0
          currIdx := 0
          endIdx := 0
          escaped := 0
          splitData := [(0, 0)]
          error := none
          unterminatedQuote := false
          done := true
          resplitting := false } := by
      rw [show (2 : Nat) = 1 + 1 from rfl, readNormal_succ]
      unfold readNormalStep
      rw [hmd]
      simp [shiftAndPush, shiftAndSetCurrent]
    show (splitLoop cfg delim (1 + 1)
        { buf := ([] : List Char)
          beginIdx := 0
          currIdx := 0
          endIdx := 0
          escaped := 0
          splitData := []
          error := none
          unterminatedQuote := false
          done := false
          resplitting := false }).splitData = [(0, 0)]
    rw [splitLoop_step cfg delim 1 _ rfl]
    show (splitLoop cfg delim 1 (readOne cfg delim 2
        { buf := ([] : List Char)
          beginIdx := 0
          currIdx := 0
          endIdx := 0
          escaped := 0
          splitData := []
          error := none
          unterminatedQuote := false
          done := false
          resplitting := false })).splitData = [(0, 0)]
    rw [hro, hrn]
    rw [splitLoop_done cfg delim 1 _ rfl]

/-- The quoting configuration of the doubled-quote scenario, with
arbitrary trim matchers around it. -/
def dqCfg (t1 t2 : List Char) : SplitCfg :=
  { quote := some '"', escape := [], trimLeft := t1, trimRight := t2,
    multiline := false }

/-- C3: with quoting enabled, splitting the single quoted field
`"x""y"` yields exactly one range, decoding to `x"y`, for every choice
of the two trim matchers (which, by the configuration constraints, never
contain the quote byte); the emitted range `(1, 4)` denotes contiguous
bytes of the in-place-shifted record buffer `"x"yy"`. -/
theorem doubled_quote_single_field (t1 t2 : List Char)
    (h1 : ('"' : Char) ∉ t1) (h2 : ('"' : Char) ∉ t2) :
    (ssSplit (dqCfg t1 t2) "\"x\"\"y\"".toList [',']).splitData = [(1, 4)] ∧
    (ssSplit (dqCfg t1 t2) "\"x\"\"y\"".toList [',']).buf = "\"x\"yy\"".toList ∧
    (ssSplit (dqCfg t1 t2) "\"x\"\"y\"".toList [',']).error = none ∧
    fieldsOf (ssSplit (dqCfg t1 t2) "\"x\"\"y\"".toList [',']) = ["x\"y".toList] := by
  have e0 : trimSkip t1 ['"', 'x', '"', '"', 'y', '"'] 0 = 0 := by
    apply trimSkip_stop
    intro _
    simp only [matcherMatch, getc]
    simpa using h1
  have e3 : trimSkip t2 ['"', 'x', '"', '"', 'y', '"'] 3 = 3 := by
    apply trimSkip_stop
    intro _
    simp only [matcherMatch, getc]
    simpa using h2
  have e6 : trimSkip t2 ['"', 'x', '"', '"', 'y', '"'] 6 = 6 := by
    apply trimSkip_stop
    intro h
    simp at h
  have hq8 : readQuoted (dqCfg t1 t2) [','] 8
      ⟨['"', 'x', '"', '"', 'y', '"'], 1, 1, 1, 0, [], none, false, false, false⟩ =
      readQuoted (dqCfg t1 t2) [','] 7
      ⟨['"', 'x', '"', '"', 'y', '"'], 1, 1, 2, 0, [], none, false, false, false⟩ := by
    rw [show (8 : Nat) = 7 + 1 from rfl, readQuoted_succ]
    simp [readQuotedStep, dqCfg, getc, quoteMatch, matcherMatch, nulChar]
  have hq7 : readQuoted (dqCfg t1 t2) [','] 7
      ⟨['"', 'x', '"', '"', 'y', '"'], 1, 1, 2, 0, [], none, false, false, false⟩ =
      readQuoted (dqCfg t1 t2) [','] 6
      ⟨['"', 'x', '"', '"', 'y', '"'], 1, 2, 4, 1, [], none, false, false, false⟩ := by
    rw [show (7 : Nat) = 6 + 1 from rfl, readQuoted_succ]
    simp [readQuotedStep, dqCfg, matchDelimiter, e3, getc, quoteMatch, matcherMatch,
      nulChar, delimAt, List.isPrefixOf, shiftIfEscaped, shiftAndJumpEscape,
      shiftAndSetCurrent]
  have hq6 : readQuoted (dqCfg t1 t2) [','] 6
      ⟨['"', 'x', '"', '"', 'y', '"'], 1, 2, 4, 1, [], none, false, false, false⟩ =
      readQuoted (dqCfg t1 t2) [','] 5
      ⟨['"', 'x', '"', '"', 'y', '"'], 1, 2, 5, 1, [], none, false, false, false⟩ := by
    rw [show (6 : Nat) = 5 + 1 from rfl, readQuoted_succ]
    simp [readQuotedStep, dqCfg, getc, quoteMatch, matcherMatch, nulChar]
  have hq5 : readQuoted (dqCfg t1 t2) [','] 5
      ⟨['"', 'x', '"', '"', 'y', '"'], 1, 2, 5, 1, [], none, false, false, false⟩ =
      ⟨['"', 'x', '"', 'y', 'y', '"'], 1, 4, 5, 1, [(1, 4)], none, false, true, false⟩ := by
    rw [show (5 : Nat) = 4 + 1 from rfl, readQuoted_succ]
    simp [readQuotedStep, dqCfg, matchDelimiter, e6, getc, quoteMatch, matcherMatch,
      nulChar, delimAt, List.isPrefixOf, shiftAndPush, shiftAndSetCurrent, copyDown]
  have hro : readOne (dqCfg t1 t2) [','] 8
      ⟨['"', 'x', '"', '"', 'y', '"'], 0, 0, 0, 0, [], none, false, false, false⟩ =
      ⟨['"', 'x', '"', 'y', 'y', '"'], 1, 4, 5, 1, [(1, 4)], none, false, true, false⟩ := by
    unfold readOne
    simp only [dqCfg]
    simp [getc, quoteMatch]
    show readQuoted (dqCfg t1 t2) [','] 8
        ⟨['"', 'x', '"', '"', 'y', '"'], 1, 1, 1, 0, [], none, false, false, false⟩ = _
    rw [hq8, hq7, hq6, hq5]
  have hentry : ssSplit (dqCfg t1 t2) "\"x\"\"y\"".toList [','] =
      splitLoop (dqCfg t1 t2) [','] 8
        ⟨['"', 'x', '"', '"', 'y', '"'], 0, 0, 0, 0, [], none, false, false, false⟩ := by
    show ssSplit (dqCfg t1 t2) ['"', 'x', '"', '"', 'y', '"'] [','] = _
    unfold ssSplit splitImplSelectDelim splitImpl initState
    simp [dqCfg, e0]
  have main : ssSplit (dqCfg t1 t2) "\"x\"\"y\"".toList [','] =
      ⟨['"', 'x', '"', 'y', 'y', '"'], 1, 4, 5, 1, [(1, 4)], none, false, true, false⟩ := by
    rw [hentry, show (8 : Nat) = 7 + 1 from rfl, splitLoop_step _ _ _ _ rfl]
    rw [show (⟨['"', 'x', '"', '"', 'y', '"'], 0, 0, 0, 0, [], none, false, false,
          false⟩ : SplitState).buf.length + 2 = 8 from rfl]
    rw [hro]
    exact splitLoop_done _ _ _ _ rfl
  rw [main]
  refine ⟨rfl, rfl, rfl, ?_⟩
  decide

/-- Witness for `doubled_quote_single_field`: the commonplace
space/tab trim configuration. -/
theorem doubled_quote_single_field_witness :
    (ssSplit (dqCfg [' '] ['\t']) "\"x\"\"y\"".toList [',']).splitData = [(1, 4)] ∧
    (ssSplit (dqCfg [' '] ['\t']) "\"x\"\"y\"".toList [',']).buf = "\"x\"yy\"".toList ∧
    (ssSplit (dqCfg [' '] ['\t']) "\"x\"\"y\"".toList [',']).error = none ∧
    fieldsOf (ssSplit (dqCfg [' '] ['\t']) "\"x\"\"y\"".toList [',']) =
      ["x\"y".toList] :=
  doubled_quote_single_field [' '] ['\t'] (by decide) (by decide)

/-! ### C4: split/join round trip on plain rows -/

/-- Auxiliary: a scan that is blocked at the head takes nothing. -/
theorem takeWhile_nil_of_head {a : Type} (P : a → Bool) (l : List a)
    (h : ∀ x, l.head? = some x → P x = false) : l.takeWhile P = [] := by
  cases l with
  | nil => rfl
  | cons x l => simp [List.takeWhile_cons, h x rfl]

/-- Auxiliary: a nonempty drop has the same last element. -/
theorem getLast?_drop_of_ne_nil {a : Type} (l : List a) (k : Nat)
    (h : l.drop k ≠ []) : (l.drop k).getLast? = l.getLast? := by
  conv_rhs => rw [← List.take_append_drop k l]
  rw [List.getLast?_append_of_ne_nil _ h]

/-- The round-trip conditions on one token: its bytes are not quote,
escape, delimiter, or terminator bytes, and its boundary bytes are not
trimmable ("no surrounding whitespace"). -/
def PlainToken (cfg : SplitCfg) (c : Char) (t : List Char) : Prop :=
  (∀ ch ∈ t, quoteMatch cfg.quote ch = false ∧ matcherMatch cfg.escape ch = false ∧
    ch ≠ c ∧ ch ≠ nulChar) ∧
  (∀ h, t.head? = some h → matcherMatch cfg.trimLeft h = false) ∧
  (∀ l, t.getLast? = some l → matcherMatch cfg.trimRight l = false)

/-- Sanity of the configured single-byte delimiter: it is distinct from
the quote, escape, trim and terminator bytes (the `setup` constraints
keep the matchers disjoint; a delimiter clashing with them is a
degenerate configuration outside the round-trip law). -/
def PlainDelim (cfg : SplitCfg) (c : Char) : Prop :=
  quoteMatch cfg.quote c = false ∧ matcherMatch cfg.escape c = false ∧
  matcherMatch cfg.trimLeft c = false ∧ matcherMatch cfg.trimRight c = false ∧
  c ≠ nulChar ∧ quoteMatch cfg.quote nulChar = false

/-- Behaviour of the normal-scan loop over one token of a plain row:
starting at the token with cursors aligned, it emits exactly the range
of the token and either finishes the split (at end of line) or starts
the next field right after the delimiter.  The buffer is not mutated
because no escape fires. -/
theorem readNormal_token (cfg : SplitCfg) (c : Char) (row : List Char)
    (hdelim : PlainDelim cfg c) :
    ∀ (n : Nat) (suf rest : List Char) (st : SplitState) (fuel : Nat),
      suf.length = n →
      st.buf = row → st.escaped = 0 →
      row.drop st.endIdx = suf ++ rest →
      (∀ ch ∈ suf, matcherMatch cfg.escape ch = false ∧ ch ≠ c ∧ ch ≠ nulChar) →
      (∀ l, suf.getLast? = some l → matcherMatch cfg.trimRight l = false) →
      (rest = [] ∨ ∃ r2, rest = c :: r2) →
      (∀ h2, rest.tail.head? = some h2 → matcherMatch cfg.trimLeft h2 = false) →
      suf.length + 1 ≤ fuel →
      (readNormal cfg [c] fuel st).buf = row ∧
      (readNormal cfg [c] fuel st).escaped = 0 ∧
      (readNormal cfg [c] fuel st).error = st.error ∧
      (readNormal cfg [c] fuel st).unterminatedQuote = st.unterminatedQuote ∧
      (readNormal cfg [c] fuel st).resplitting = st.resplitting ∧
      (readNormal cfg [c] fuel st).splitData =
        st.splitData ++ [(st.beginIdx, st.endIdx + suf.length)] ∧
      (readNormal cfg [c] fuel st).currIdx = st.endIdx + suf.length ∧
      (readNormal cfg [c] fuel st).endIdx = st.endIdx + suf.length ∧
      (rest = [] → (readNormal cfg [c] fuel st).done = true) ∧
      (∀ r2, rest = c :: r2 →
        (readNormal cfg [c] fuel st).done = st.done ∧
        (readNormal cfg [c] fuel st).beginIdx = st.endIdx + suf.length + 1) := by
  obtain ⟨hdq, hde, hdtl, hdtr, hdnn, hqn⟩ := hdelim
  intro n
  induction n using Nat.strong_induction_on with
  | _ n ih =>
    intro suf rest st fuel hlen hbuf hesc hdrop hchar hlast hrest hr2 hfuel
    obtain ⟨f, rfl⟩ : ∃ f, fuel = f + 1 := ⟨fuel - 1, by omega⟩
    -- the right-trim run that starts at the cursor stays inside `suf`
    have htwrest : rest.takeWhile (fun ch => matcherMatch cfg.trimRight ch) = [] := by
      apply takeWhile_nil_of_head
      intro x hx
      rcases hrest with h | ⟨r2, h⟩
      · simp [h] at hx
      · rw [h] at hx
        simp at hx
        rw [← hx]
        exact hdtr
    have htw : (suf ++ rest).takeWhile (fun ch => matcherMatch cfg.trimRight ch) =
        suf.takeWhile (fun ch => matcherMatch cfg.trimRight ch) := by
      rw [List.takeWhile_append]
      by_cases hall : (suf.takeWhile (fun ch => matcherMatch cfg.trimRight ch)).length
          = suf.length
      · have heq : suf.takeWhile (fun ch => matcherMatch cfg.trimRight ch) = suf :=
          List.IsPrefix.eq_of_length (List.takeWhile_prefix _) hall
        rw [if_pos hall, htwrest, List.append_nil]
        exact heq.symm
      · rw [if_neg hall]
    have he : trimSkip cfg.trimRight row st.endIdx =
        st.endIdx + (suf.takeWhile (fun ch => matcherMatch cfg.trimRight ch)).length := by
      rw [trimSkip_spec, hdrop, htw]
    set kk := (suf.takeWhile (fun ch => matcherMatch cfg.trimRight ch)).length with hkk
    have hkkle : kk ≤ suf.length := (List.takeWhile_sublist _).length_le
    by_cases hkfull : kk = suf.length
    · -- the trim run swallowed the whole remaining token: then it is empty
      have hsufnil : suf = [] := by
        by_contra hne
        have hl := List.getLast?_eq_getLast suf hne
        have hmem : suf.getLast hne ∈ suf := List.getLast_mem hne
        have h1 := takeWhile_all _ suf hkfull _ hmem
        have h2 := hlast _ hl
        rw [h2] at h1
        cases h1
      subst hsufnil
      simp only [List.nil_append] at hdrop
      have he0 : trimSkip cfg.trimRight row st.endIdx = st.endIdx := by
        simpa using he
      rcases hrest with hrnil | ⟨r2, hrc⟩
      · -- end of line: the final field is emitted and the split is done
        subst hrnil
        have hg : getc row st.endIdx = nulChar := by
          rw [getc_drop, hdrop]
          rfl
        have hmd : matchDelimiter cfg [c] st st.endIdx = (0, false, st) := by
          simp only [matchDelimiter, hbuf, he0, hg]
          simp
        have hsp : shiftAndPush st =
            { st with
              currIdx := st.endIdx
              splitData := st.splitData ++ [(st.beginIdx, st.endIdx)] } := by
          unfold shiftAndPush shiftAndSetCurrent
          rw [hesc]
          simp
        rw [readNormal_succ, readNormalStep, hmd]
        simp [hsp, hbuf, hesc]
      · -- delimiter: the field is emitted, the next one starts after it
        subst hrc
        have hg : getc row st.endIdx = c := by
          rw [getc_drop, hdrop]
          rfl
        have hda : delimAt [c] row st.endIdx = true := by
          unfold delimAt
          rw [hdrop]
          simp [List.isPrefixOf]
        have hdrop2 : row.drop (st.endIdx + 1) = r2 := by
          have hdd : (row.drop st.endIdx).drop 1 = row.drop (st.endIdx + 1) := by
            rw [List.drop_drop]
          rw [← hdd, hdrop]
          rfl
        have he2 : trimSkip cfg.trimLeft row (st.endIdx + 1) = st.endIdx + 1 := by
          rw [trimSkip_spec, hdrop2]
          rw [takeWhile_nil_of_head]
          · simp
          · intro x hx
            exact hr2 x (by simpa using hx)
        have hcn : (c == nulChar) = false := by simp [hdnn]
        have hmd : matchDelimiter cfg [c] st st.endIdx = (1, true, st) := by
          simp only [matchDelimiter, hbuf, he0, hg, hcn, hda]
          simp [he2]
        have hsp : shiftPushAndStartNext st 1 =
            { st with
              beginIdx := st.endIdx + 1
              currIdx := st.endIdx
              splitData := st.splitData ++ [(st.beginIdx, st.endIdx)] } := by
          unfold shiftPushAndStartNext shiftAndPush shiftAndSetCurrent
          rw [hesc]
          simp
        rw [readNormal_succ, readNormalStep, hmd]
        simp [hsp, hbuf, hesc]
    · -- the right-trim scan stops at a token byte that is not a delimiter:
      -- the cursor jumps past it and the loop continues inside the token
      have hklt : kk < suf.length := by omega
      have hx : matcherMatch cfg.trimRight (suf[kk]) = false :=
        takeWhile_stop _ suf hklt
      obtain ⟨hxe, hxc, hxn⟩ := hchar (suf[kk]) (List.getElem_mem hklt)
      have hdropk : row.drop (st.endIdx + kk) =
          (suf[kk]) :: (suf.drop (kk + 1) ++ rest) := by
        have h1 : (row.drop st.endIdx).drop kk = row.drop (st.endIdx + kk) := by
          rw [List.drop_drop]
        rw [← h1, hdrop, List.drop_append_of_le_length (by omega)]
        rw [List.drop_eq_getElem_cons hklt]
        rfl
      have hg : getc row (st.endIdx + kk) = suf[kk] := by
        rw [getc_drop, hdropk]
        rfl
      have hxnul : ((suf[kk]) == nulChar) = false := by simp [hxn]
      have hda : delimAt [c] row (st.endIdx + kk) = false := by
        unfold delimAt
        rw [hdropk]
        simp [List.isPrefixOf]
        intro hcx
        exact absurd hcx.symm hxc
      have hse : shiftIfEscaped cfg st (st.endIdx + kk) = st := by
        unfold shiftIfEscaped
        rw [hbuf, hg, hxe]
        simp
      have hmd : matchDelimiter cfg [c] st st.endIdx = (1 + kk, false, st) := by
        simp only [matchDelimiter, hbuf, he, hg, hxnul, hda, hse]
        simp only [Bool.false_eq_true, if_false]
        refine congrArg (fun w => (w, false, st)) ?_
        omega
      have hstep : readNormalStep cfg [c] (readNormal cfg [c] f) st =
          readNormal cfg [c] f { st with endIdx := st.endIdx + (1 + kk) } := by
        rw [readNormalStep, hmd]
        simp
      have hdrop2 : row.drop (st.endIdx + (1 + kk)) = suf.drop (kk + 1) ++ rest := by
        have h1 : (row.drop (st.endIdx + kk)).drop 1 = row.drop (st.endIdx + kk + 1) := by
          rw [List.drop_drop]
        have h2 : st.endIdx + (1 + kk) = st.endIdx + kk + 1 := by omega
        rw [h2, ← h1, hdropk]
        rfl
      have hsub : ∀ ch ∈ suf.drop (kk + 1), ch ∈ suf := fun ch hch =>
        List.drop_subset _ suf hch
      have ihres := ih (suf.length - (kk + 1)) (by omega) (suf.drop (kk + 1)) rest
        { st with endIdx := st.endIdx + (1 + kk) } f
        (by simp) hbuf hesc hdrop2
        (fun ch hch => hchar ch (hsub ch hch))
        (by
          intro l hl
          apply hlast
          have hne : suf.drop (kk + 1) ≠ [] := by
            intro hnil
            rw [hnil] at hl
            simp at hl
          rw [← getLast?_drop_of_ne_nil suf (kk + 1) hne]
          exact hl)
        hrest hr2 (by simp; omega)
      have harith : st.endIdx + (1 + kk) + (suf.length - (kk + 1)) =
          st.endIdx + suf.length := by omega
      rw [readNormal_succ, hstep]
      simpa [harith] using ihres
/-- Unfolding of `List.intercalate` over a nonempty tail. -/
theorem intercalate_cons (c : Char) (t : List Char) (ts : List (List Char))
    (h : ts ≠ []) :
    List.intercalate [c] (t :: ts) = t ++ c :: List.intercalate [c] ts := by
  cases ts with
  | nil => cases h rfl
  | cons u us =>
    simp [List.intercalate, List.intersperse]

/-- The expected field ranges of a plain row: one per token, each
starting right after the previous delimiter. -/
def tokRanges (p : Nat) : List (List Char) → List (Nat × Nat)
  | [] => []
  | t :: ts => (p, p + t.length) :: tokRanges (p + t.length + 1) ts

/-- Reading the expected ranges back from the unmutated row recovers the
tokens. -/
theorem tokRanges_content (c : Char) (row : List Char) :
    ∀ (ts : List (List Char)) (p : Nat), row.drop p = List.intercalate [c] ts →
      (tokRanges p ts).map (rangeContent row) = ts := by
  intro ts
  induction ts with
  | nil => intro p _; rfl
  | cons t ts ihts =>
    intro p hdrop
    cases ts with
    | nil =>
      simp [List.intercalate] at hdrop
      simp [tokRanges, rangeContent, hdrop]
    | cons u us =>
      rw [intercalate_cons c t (u :: us) (by simp)] at hdrop
      have hcontent : rangeContent row (p, p + t.length) = t := by
        unfold rangeContent
        simp only [hdrop]
        simp [List.take_append_of_le_length]
      have hdrop2 : row.drop (p + t.length + 1) = List.intercalate [c] (u :: us) := by
        have h1 : (row.drop p).drop (t.length + 1) = row.drop (p + (t.length + 1)) := by
          rw [List.drop_drop]
        have h2 := List.drop_left (t ++ [c]) (List.intercalate [c] (u :: us))
        rw [← Nat.add_assoc] at h1
        rw [← h1, hdrop]
        simpa using h2
      rw [show tokRanges p (t :: u :: us) =
            (p, p + t.length) :: tokRanges (p + t.length + 1) (u :: us) from rfl]
      rw [List.map_cons, hcontent, ihts (p + t.length + 1) hdrop2]

/-- A row of `n` tokens has at least `n - 1` bytes (the delimiters). -/
theorem intercalate_length_ge (c : Char) :
    ∀ (ts : List (List Char)), ts.length ≤ (List.intercalate [c] ts).length + 1 := by
  intro ts
  induction ts with
  | nil => simp
  | cons t us ih =>
    cases us with
    | nil => simp
    | cons u us2 =>
      rw [intercalate_cons c t (u :: us2) (by simp)]
      simp only [List.length_cons, List.length_append] at *
      omega

/-- The head byte of an intercalated row is a token head or the
delimiter, so it is never a left-trim byte under the round-trip
conditions. -/
theorem intercalate_head_no_trim (cfg : SplitCfg) (c : Char)
    (hdtl : matcherMatch cfg.trimLeft c = false) :
    ∀ (ts : List (List Char)),
      (∀ t ∈ ts, ∀ h, t.head? = some h → matcherMatch cfg.trimLeft h = false) →
      ∀ h2, (List.intercalate [c] ts).head? = some h2 →
        matcherMatch cfg.trimLeft h2 = false := by
  intro ts htok h2 hh2
  cases ts with
  | nil => simp [List.intercalate] at hh2
  | cons u us =>
    cases us with
    | nil =>
      simp [List.intercalate] at hh2
      exact htok u (by simp) h2 hh2
    | cons v vs =>
      rw [intercalate_cons c u (v :: vs) (by simp)] at hh2
      cases hu : u with
      | nil =>
        rw [hu] at hh2
        simp at hh2
        rw [← hh2]
        exact hdtl
      | cons y ys =>
        rw [hu] at hh2
        simp at hh2
        rw [← hh2]
        exact htok u (by simp) y (by rw [hu]; rfl)

/-- `splitter::read(delim)` reduces to the normal scanner when the byte
at the field start is not a quote and no resumption is pending. -/
theorem readOne_normal (cfg : SplitCfg) (delim : List Char) (fuelIn : Nat)
    (st : SplitState) (hq : quoteMatch cfg.quote (getc st.buf st.beginIdx) = false)
    (hrs : st.resplitting = false) :
    readOne cfg delim fuelIn st =
      readNormal cfg delim fuelIn
        { st with escaped := 0, currIdx := st.beginIdx, endIdx := st.beginIdx } := by
  unfold readOne
  by_cases hqs : cfg.quote.isSome
  · simp [hqs, hrs, hq]
  · simp [hqs]

/-- Behaviour of the split-impl loop over the remaining tokens of a
plain row: one range is emitted per token and the loop finishes with the
buffer untouched. -/
theorem splitLoop_tokens (cfg : SplitCfg) (c : Char) (row : List Char)
    (hdelim : PlainDelim cfg c) :
    ∀ (ts : List (List Char)) (st : SplitState) (fuel : Nat),
      ts ≠ [] →
      st.buf = row → st.done = false → st.resplitting = false →
      row.drop st.beginIdx = List.intercalate [c] ts →
      (∀ t ∈ ts, PlainToken cfg c t) →
      ts.length + 1 ≤ fuel →
      (splitLoop cfg [c] fuel st).buf = row ∧
      (splitLoop cfg [c] fuel st).error = st.error ∧
      (splitLoop cfg [c] fuel st).unterminatedQuote = st.unterminatedQuote ∧
      (splitLoop cfg [c] fuel st).splitData =
        st.splitData ++ tokRanges st.beginIdx ts ∧
      (splitLoop cfg [c] fuel st).done = true := by
  obtain ⟨hdq, hde, hdtl, hdtr, hdnn, hqn⟩ := hdelim
  intro ts
  induction ts with
  | nil => intro st fuel hne; cases hne rfl
  | cons t ts ihts =>
    intro st fuel _ hbuf hdone hrs hdrop htok hfuel
    obtain ⟨f, rfl⟩ : ∃ f, fuel = f + 1 := ⟨fuel - 1, by omega⟩
    obtain ⟨htokt, htokhd, htoklast⟩ := htok t (by simp)
    -- the byte at the field start is not a quote byte
    have hquote : quoteMatch cfg.quote (getc row st.beginIdx) = false := by
      rw [getc_drop, hdrop]
      cases t with
      | cons x xs =>
        have := (htokt x (by simp)).1
        cases ts with
        | nil => simpa [List.intercalate] using this
        | cons u us => simpa [intercalate_cons c _ (u :: us) (by simp)] using this
      | nil =>
        cases ts with
        | nil => simpa [List.intercalate] using hqn
        | cons u us => simpa [intercalate_cons c _ (u :: us) (by simp)] using hdq
    rw [splitLoop_step cfg [c] f st hdone]
    rw [readOne_normal cfg [c] (st.buf.length + 2) st (by rw [hbuf]; exact hquote) hrs]
    set stE : SplitState :=
      { st with escaped := 0, currIdx := st.beginIdx, endIdx := st.beginIdx } with hstE
    have htlen : t.length ≤ (List.intercalate [c] (t :: ts)).length := by
      cases ts with
      | nil => simp [List.intercalate]
      | cons u us =>
        rw [intercalate_cons c t (u :: us) (by simp)]
        simp
    have hlenrow : (List.intercalate [c] (t :: ts)).length ≤ row.length := by
      rw [← hdrop]
      simpa using List.length_drop_le st.beginIdx row
    cases ts with
    | nil =>
      -- last token: the field is emitted and the loop terminates
      have hdropt : row.drop stE.endIdx = t ++ [] := by
        show row.drop st.beginIdx = t ++ []
        rw [hdrop]
        simp [List.intercalate]
      have hres := readNormal_token cfg c row
        ⟨hdq, hde, hdtl, hdtr, hdnn, hqn⟩ t.length t [] stE (st.buf.length + 2) rfl
        (by show st.buf = row; exact hbuf) (by show (0 : Nat) = 0; rfl) hdropt
        (fun ch hch => ⟨(htokt ch hch).2.1, (htokt ch hch).2.2.1, (htokt ch hch).2.2.2⟩)
        htoklast (Or.inl rfl) (by simp)
        (by show t.length + 1 ≤ st.buf.length + 2
            rw [hbuf]
            have := Nat.le_trans htlen hlenrow
            omega)
      obtain ⟨hb, hesc2, herr, hunt, hrsp, hsd, hcu, hen, hdn, _⟩ := hres
      rw [splitLoop_done cfg [c] f _ (hdn rfl)]
      refine ⟨hb, ?_, ?_, ?_, hdn rfl⟩
      · rw [herr]
      · rw [hunt]
      · rw [hsd]
        show stE.splitData ++ _ = st.splitData ++ tokRanges st.beginIdx [t]
        simp [tokRanges]
    | cons u us =>
      -- inner token: emit its range, then continue with the remaining ones
      have hdropt : row.drop stE.endIdx = t ++ (c :: List.intercalate [c] (u :: us)) := by
        show row.drop st.beginIdx = _
        rw [hdrop]
        exact intercalate_cons c t (u :: us) (by simp)
      have hres := readNormal_token cfg c row
        ⟨hdq, hde, hdtl, hdtr, hdnn, hqn⟩ t.length t (c :: List.intercalate [c] (u :: us))
        stE (st.buf.length + 2) rfl
        (by show st.buf = row; exact hbuf) (by show (0 : Nat) = 0; rfl) hdropt
        (fun ch hch => ⟨(htokt ch hch).2.1, (htokt ch hch).2.2.1, (htokt ch hch).2.2.2⟩)
        htoklast (Or.inr ⟨_, rfl⟩)
        (by
          intro h2 hh2
          simp only [List.tail_cons] at hh2
          exact intercalate_head_no_trim cfg c hdtl (u :: us)
            (fun t2 ht2 => (htok t2 (by simp [ht2])).2.1) h2 hh2)
        (by show t.length + 1 ≤ st.buf.length + 2
            rw [hbuf]
            have := Nat.le_trans htlen hlenrow
            omega)
      obtain ⟨hb, hesc2, herr, hunt, hrsp, hsd, hcu, hen, _, hdel⟩ := hres
      obtain ⟨hdn2, hbg2⟩ := hdel (List.intercalate [c] (u :: us)) rfl
      set st2 := readNormal cfg [c] (st.buf.length + 2) stE with hst2
      have hbg2' : st2.beginIdx = st.beginIdx + t.length + 1 := by
        rw [hbg2]
      have hdrop2 : row.drop st2.beginIdx = List.intercalate [c] (u :: us) := by
        rw [hbg2']
        have h1 : (row.drop st.beginIdx).drop (t.length + 1) =
            row.drop (st.beginIdx + (t.length + 1)) := by
          rw [List.drop_drop]
        have h2 := List.drop_left (t ++ [c]) (List.intercalate [c] (u :: us))
        rw [← Nat.add_assoc] at h1
        rw [← h1, hdrop, intercalate_cons c t (u :: us) (by simp)]
        simpa using h2
      have ihres := ihts st2 f (by simp) hb
        (by rw [hdn2]; show st.done = false; exact hdone)
        (by rw [hrsp]; show st.resplitting = false; exact hrs)
        hdrop2 (fun t2 ht2 => htok t2 (by simp [ht2])) (by simp at hfuel ⊢; omega)
      obtain ⟨ib, ierr, iunt, isd, idone⟩ := ihres
      refine ⟨ib, ?_, ?_, ?_, idone⟩
      · rw [ierr, herr]
      · rw [iunt, hunt]
      · rw [isd, hsd, hbg2']
        show (stE.splitData ++ _) ++ _ = st.splitData ++ tokRanges st.beginIdx (t :: u :: us)
        have hse : stE.splitData = st.splitData := rfl
        have hsb : stE.beginIdx = st.beginIdx := rfl
        have hsen : stE.endIdx = st.beginIdx := rfl
        rw [hse, hsb, hsen]
        simp [tokRanges]

/-- Executable form of the `PlainToken` conditions, for concrete
instantiation. -/
def plainTokenChecks (cfg : SplitCfg) (c : Char) (t : List Char) : Bool :=
  t.all (fun ch => !quoteMatch cfg.quote ch && !matcherMatch cfg.escape ch &&
    !(ch == c) && !(ch == nulChar)) &&
  t.head?.all (fun h => !matcherMatch cfg.trimLeft h) &&
  t.getLast?.all (fun l => !matcherMatch cfg.trimRight l)

theorem plainToken_of_checks (cfg : SplitCfg) (c : Char) (t : List Char)
    (h : plainTokenChecks cfg c t = true) : PlainToken cfg c t := by
  unfold plainTokenChecks at h
  simp only [Bool.and_eq_true, List.all_eq_true] at h
  obtain ⟨⟨ha, hh⟩, hl⟩ := h
  refine ⟨?_, ?_, ?_⟩
  · intro ch hch
    have hb := ha ch hch
    simp only [Bool.and_eq_true, Bool.not_eq_eq_eq_not, Bool.not_true,
      beq_eq_false_iff_ne] at hb
    tauto
  · intro x hx
    have hb : (!matcherMatch cfg.trimLeft x) = true := by
      rw [hx] at hh
      simpa [Option.all] using hh
    simpa using hb
  · intro x hx
    have hb : (!matcherMatch cfg.trimRight x) = true := by
      rw [hx] at hl
      simpa [Option.all] using hl
    simpa using hb

/-- C4: for every input row made of ASCII tokens that contain no quote,
escape, or delimiter bytes and carry no surrounding whitespace, the
splitter emits exactly those tokens as fields, without error and without
mutating the buffer, so joining the emitted field strings with the
delimiter reproduces the input line byte for byte. -/
theorem split_then_join_identity (cfg : SplitCfg) (c : Char)
    (ts : List (List Char)) (hne : ts ≠ [])
    (htok : ∀ t ∈ ts, PlainToken cfg c t) (hdelim : PlainDelim cfg c) :
    (ssSplit cfg (List.intercalate [c] ts) [c]).error = none ∧
    fieldsOf (ssSplit cfg (List.intercalate [c] ts) [c]) = ts ∧
    List.intercalate [c] (fieldsOf (ssSplit cfg (List.intercalate [c] ts) [c])) =
      List.intercalate [c] ts := by
  obtain ⟨hdq, hde, hdtl, hdtr, hdnn, hqn⟩ := hdelim
  set row := List.intercalate [c] ts with hrow
  have h0 : trimSkip cfg.trimLeft row 0 = 0 := by
    rw [trimSkip_spec]
    simp only [List.drop_zero]
    rw [takeWhile_nil_of_head]
    · simp
    · intro x hx
      exact intercalate_head_no_trim cfg c hdtl ts
        (fun t ht => (htok t ht).2.1) x (by rw [← hrow]; exact hx)
  have hentry : ssSplit cfg row [c] = splitLoop cfg [c] (row.length + 2)
      ⟨row, 0, 0, 0, 0, [], none, false, false, false⟩ := by
    unfold ssSplit splitImplSelectDelim splitImpl initState
    simp [h0]
  have hloop := splitLoop_tokens cfg c row ⟨hdq, hde, hdtl, hdtr, hdnn, hqn⟩ ts
    ⟨row, 0, 0, 0, 0, [], none, false, false, false⟩ (row.length + 2) hne rfl rfl rfl
    (by simp [hrow]) htok
    (by have := intercalate_length_ge c ts; rw [← hrow] at this; omega)
  obtain ⟨hb, herr, hunt, hsd, hdone⟩ := hloop
  have hfields : fieldsOf (ssSplit cfg row [c]) = ts := by
    unfold fieldsOf
    rw [hentry, hsd, hb]
    show List.map (rangeContent row) ([] ++ tokRanges 0 ts) = ts
    rw [List.nil_append]
    exact tokRanges_content c row ts 0 (by simp [hrow])
  refine ⟨?_, hfields, by rw [hfields]⟩
  rw [hentry, herr]

/-- Witness for `split_then_join_identity`: the row `ab, c d ,` (three
tokens, one with interior whitespace, one empty) under a quote, escape
and trim configuration. -/
theorem split_then_join_identity_witness :
    (ssSplit ⟨some '"', ['\\'], [' '], [' '], false⟩
        (List.intercalate [','] ["ab".toList, "c d".toList, []]) [',']).error = none ∧
    fieldsOf (ssSplit ⟨some '"', ['\\'], [' '], [' '], false⟩
        (List.intercalate [','] ["ab".toList, "c d".toList, []]) [',']) =
      ["ab".toList, "c d".toList, []] ∧
    List.intercalate [','] (fieldsOf (ssSplit ⟨some '"', ['\\'], [' '], [' '], false⟩
        (List.intercalate [','] ["ab".toList, "c d".toList, []]) [','])) =
      List.intercalate [','] ["ab".toList, "c d".toList, []] :=
  split_then_join_identity ⟨some '"', ['\\'], [' '], [' '], false⟩ ','
    ["ab".toList, "c d".toList, []] (by simp)
    (by
      intro t ht
      simp only [List.mem_cons, List.not_mem_nil, or_false] at ht
      rcases ht with rfl | rfl | rfl <;>
        exact plainToken_of_checks _ _ _ (by decide))
    (by constructor <;> simp <;> decide)

/-! ### C8: the trailing-escape liveness test of the line reader -/

/-- The leftward scan of `reader::escaped_eol`: starting from byte
`size - 1`, consume consecutive escape bytes; the result is the final
value of the `curr` pointer as a (possibly `-1`) index.  The argument is
the scan position plus one, so `escLoop esc buf size` starts the C loop
at `buf + size - 1`. -/
def escLoop (esc buf : List Char) : Nat → Int
  | 0 => -1
  | i + 1 => if matcherMatch esc (getc buf i) then escLoop esc buf i else (i : Int)

/-- `reader::escaped_eol(size)`: the trailing escape is live iff
`(next_line_buffer_ - curr + size) % 2 == 0` with the buffer base at
index zero. -/
def escapedEol (esc buf : List Char) (size : Nat) : Bool :=
  decide ((0 - escLoop esc buf size + (size : Int)) % 2 = 0)

/-- The scan stops exactly below the run of trailing escape bytes. -/
theorem escLoop_spec (esc buf : List Char) :
    ∀ n, n ≤ buf.length →
      escLoop esc buf n = (n : Int) - 1 -
        (((buf.take n).reverse.takeWhile
          (fun ch => matcherMatch esc ch)).length : Int) := by
  intro n
  induction n with
  | zero =>
    intro h
    simp [escLoop]
  | succ n ihn =>
    intro h
    have hn : n < buf.length := by omega
    have htake : buf.take (n + 1) = buf.take n ++ [buf[n]] :=
      (List.take_concat_get' buf n hn).symm
    have hrev : (buf.take (n + 1)).reverse = buf[n] :: (buf.take n).reverse := by
      rw [htake]
      simp
    have hg : getc buf n = buf[n] := List.getD_eq_getElem buf nulChar hn
    show (if matcherMatch esc (getc buf n) then escLoop esc buf n else (n : Int)) = _
    by_cases hm : matcherMatch esc (getc buf n) = true
    · rw [if_pos hm, ihn (by omega), hrev]
      rw [List.takeWhile_cons_of_pos (by rw [← hg]; exact hm)]
      simp only [List.length_cons]
      push_cast
      omega
    · rw [if_neg hm, hrev]
      rw [List.takeWhile_cons_of_neg (by rw [← hg]; exact hm)]
      simp only [List.length_nil]
      push_cast
      omega

/-- C8: the trailing-escape liveness test of the escaped-continuation
loop returns true exactly when the record buffer ends in an odd number
of consecutive escape bytes (scanning leftward from the end), for every
escape matcher and every buffer, including the empty buffer and a buffer
consisting solely of escape bytes. -/
theorem escaped_eol_odd_iff (esc buf : List Char) :
    escapedEol esc buf buf.length =
      decide ((buf.reverse.takeWhile
        (fun ch => matcherMatch esc ch)).length % 2 = 1) := by
  unfold escapedEol
  rw [escLoop_spec esc buf buf.length (le_refl _), List.take_length]
  rw [decide_eq_decide]
  omega

/-! ### C9: the resplit guard -/

/-- `shift_and_set_current` never touches the error state. -/
theorem shiftAndSetCurrent_error (st : SplitState) :
    (shiftAndSetCurrent st).error = st.error := by
  unfold shiftAndSetCurrent
  split <;> rfl

/-- `shift_and_jump_escape` never touches the error state. -/
theorem shiftAndJumpEscape_error (st : SplitState) :
    (shiftAndJumpEscape st).error = st.error := by
  unfold shiftAndJumpEscape
  rw [show ({ shiftAndSetCurrent st with
      escaped := (shiftAndSetCurrent st).escaped + 1
      endIdx := (shiftAndSetCurrent st).endIdx + 1 } : SplitState).error =
    (shiftAndSetCurrent st).error from rfl]
  exact shiftAndSetCurrent_error st

/-- `shift_and_push` never touches the error state. -/
theorem shiftAndPush_error (st : SplitState) :
    (shiftAndPush st).error = st.error := by
  unfold shiftAndPush
  rw [show ({ shiftAndSetCurrent st with
      splitData := (shiftAndSetCurrent st).splitData ++
        [((shiftAndSetCurrent st).beginIdx, (shiftAndSetCurrent st).currIdx)] } :
      SplitState).error = (shiftAndSetCurrent st).error from rfl]
  exact shiftAndSetCurrent_error st

/-- `shift_push_and_start_next` never touches the error state. -/
theorem shiftPushAndStartNext_error (st : SplitState) (n : Nat) :
    (shiftPushAndStartNext st n).error = st.error := by
  unfold shiftPushAndStartNext
  rw [show ({ shiftAndPush st with
      beginIdx := (shiftAndPush st).endIdx + n } : SplitState).error =
    (shiftAndPush st).error from rfl]
  exact shiftAndPush_error st

/-- `match_delimiter` at most raises the unterminated-escape error. -/
theorem matchDelimiter_error (cfg : SplitCfg) (delim : List Char)
    (st : SplitState) (b : Nat) :
    (matchDelimiter cfg delim st b).2.2.error = st.error ∨
    (matchDelimiter cfg delim st b).2.2.error = some .unterminatedEscape := by
  unfold matchDelimiter
  simp only []
  by_cases h1 : (getc st.buf (trimSkip cfg.trimRight st.buf b) == nulChar) = true
  · rw [if_pos h1]
    exact Or.inl rfl
  · rw [if_neg h1]
    by_cases h2 : delimAt delim st.buf (trimSkip cfg.trimRight st.buf b) = true
    · rw [if_pos h2]
      exact Or.inl rfl
    · rw [if_neg h2]
      unfold shiftIfEscaped
      by_cases h3 : matcherMatch cfg.escape
          (getc st.buf (trimSkip cfg.trimRight st.buf b)) = true
      · rw [if_pos h3]
        by_cases h4 : (getc st.buf (trimSkip cfg.trimRight st.buf b + 1) ==
            nulChar) = true
        · rw [if_pos h4]
          exact Or.inr rfl
        · rw [if_neg h4]
          exact Or.inl (shiftAndJumpEscape_error st)
      · rw [if_neg h3]
        exact Or.inl rfl

/-- `read_normal` never raises the invalid-resplit error. -/
theorem readNormal_no_invalid (cfg : SplitCfg) (delim : List Char) :
    ∀ (fuel : Nat) (st : SplitState), st.error ≠ some .invalidResplit →
      (readNormal cfg delim fuel st).error ≠ some .invalidResplit := by
  intro fuel
  induction fuel with
  | zero =>
    intro st h
    rw [readNormal_zero]
    exact h
  | succ f ihf =>
    intro st h
    rw [readNormal_succ]
    unfold readNormalStep
    simp only []
    have hmd := matchDelimiter_error cfg delim st st.endIdx
    have h1 : (matchDelimiter cfg delim st st.endIdx).2.2.error ≠
        some SplitErr.invalidResplit := by
      rcases hmd with hmd | hmd <;> rw [hmd]
      · exact h
      · simp
    split
    · rw [shiftPushAndStartNext_error]
      exact h1
    · split
      · rw [show ∀ (s2 : SplitState), ({ s2 with done := true } :
            SplitState).error = s2.error from fun s2 => rfl]
        rw [shiftAndPush_error]
        exact h1
      · apply ihf
        rw [show ∀ (s2 : SplitState) (k : Nat), ({ s2 with endIdx := k } :
            SplitState).error = s2.error from fun s2 k => rfl]
        exact h1

/-- `read_quoted` never raises the invalid-resplit error. -/
theorem readQuoted_no_invalid (cfg : SplitCfg) (delim : List Char) :
    ∀ (fuel : Nat) (st : SplitState), st.error ≠ some .invalidResplit →
      (readQuoted cfg delim fuel st).error ≠ some .invalidResplit := by
  intro fuel
  induction fuel with
  | zero =>
    intro st h
    rw [readQuoted_zero]
    exact h
  | succ f ihf =>
    intro st h
    rw [readQuoted_succ]
    unfold readQuotedStep
    simp only []
    have hmd := matchDelimiter_error cfg delim st (st.endIdx + 1)
    have h1 : (matchDelimiter cfg delim st (st.endIdx + 1)).2.2.error ≠
        some SplitErr.invalidResplit := by
      rcases hmd with hmd | hmd <;> rw [hmd]
      · exact h
      · simp
    split
    · split
      · rw [shiftPushAndStartNext_error]
        exact h1
      · split
        · apply ihf
          rw [show ∀ (s2 : SplitState) (k : Nat), ({ s2 with endIdx := k } :
              SplitState).error = s2.error from fun s2 k => rfl]
          rw [shiftAndJumpEscape_error]
          exact h1
        · split
          · rw [show ∀ (s2 : SplitState), ({ s2 with done := true } :
                SplitState).error = s2.error from fun s2 => rfl]
            rw [shiftAndPush_error]
            exact h1
          · simp
    · split
      · split
        · simp
        · apply ihf
          rw [show ∀ (s2 : SplitState) (k : Nat), ({ s2 with endIdx := k } :
              SplitState).error = s2.error from fun s2 k => rfl]
          rw [shiftAndJumpEscape_error]
          exact h
      · split
        · simp
        · apply ihf
          exact h

/-- `read` never raises the invalid-resplit error. -/
theorem readOne_no_invalid (cfg : SplitCfg) (delim : List Char)
    (fuel : Nat) (st : SplitState) (h : st.error ≠ some .invalidResplit) :
    (readOne cfg delim fuel st).error ≠ some .invalidResplit := by
  unfold readOne
  simp only []
  split
  · split
    · exact readQuoted_no_invalid cfg delim fuel _ h
    · split
      · exact readQuoted_no_invalid cfg delim fuel _ h
      · exact readNormal_no_invalid cfg delim fuel _ h
  · exact readNormal_no_invalid cfg delim fuel _ h

/-- The split-impl driving loop never raises the invalid-resplit
error. -/
theorem splitLoop_no_invalid (cfg : SplitCfg) (delim : List Char) :
    ∀ (fuel : Nat) (st : SplitState), st.error ≠ some .invalidResplit →
      (splitLoop cfg delim fuel st).error ≠ some .invalidResplit := by
  intro fuel
  induction fuel with
  | zero =>
    intro st h
    rw [splitLoop_zero]
    exact h
  | succ f ihf =>
    intro st h
    rw [splitLoop_succ]
    split
    · exact h
    · exact ihf _ (readOne_no_invalid cfg delim _ st h)

/-- `split_impl_select_delim` never raises the invalid-resplit error:
it clears the error state first and at most reports the empty-delimiter
error itself. -/
theorem splitImplSelectDelim_no_invalid (cfg : SplitCfg)
    (delim : List Char) (st : SplitState) :
    (splitImplSelectDelim cfg delim st).error ≠ some .invalidResplit := by
  unfold splitImplSelectDelim
  split
  · simp
  · unfold splitImpl
    apply splitLoop_no_invalid
    simp

/-- C9 (corrected): in a resumable state (quoting and multiline on, a
recorded unterminated quote with its junk placeholder slice), the
resplit guard compares the reported size against the *beginning of the
suspended field* — one less than the end of the junk slice — not
against the end of the last emitted slice: when `new_size \u2260 -1` and the
size-cast of `new_size` is below `last.2 - last.1 - 1`, the splitter
records the invalid-resplit error, clears the unterminated-quote flag
and leaves the emitted ranges unchanged; otherwise the resumed split can
end in any state except invalid-resplit. -/
theorem resplit_guard (cfg : SplitCfg) (st : SplitState)
    (newLine : List Char) (newSize : Int) (delim : List Char)
    (hq : cfg.quote.isSome = true) (hm : cfg.multiline = true)
    (hne : st.splitData.isEmpty = false) (hu : st.unterminatedQuote = true) :
    ((newSize != -1 &&
        decide (sizeTCast newSize < (st.splitData.getLastD (0, 0)).2 -
          (st.splitData.getLastD (0, 0)).1 - 1)) = true →
      resplit cfg st newLine newSize delim = setErrorInvalidResplit st ∧
      (resplit cfg st newLine newSize delim).error = some .invalidResplit ∧
      (resplit cfg st newLine newSize delim).unterminatedQuote = false ∧
      (resplit cfg st newLine newSize delim).splitData = st.splitData) ∧
    ((newSize != -1 &&
        decide (sizeTCast newSize < (st.splitData.getLastD (0, 0)).2 -
          (st.splitData.getLastD (0, 0)).1 - 1)) = false →
      (resplit cfg st newLine newSize delim).error ≠ some .invalidResplit) := by
  have hguard : (cfg.quote.isNone || !cfg.multiline || st.splitData.isEmpty ||
      !st.unterminatedQuote) = false := by
    rw [hm, hne, hu]
    cases hv : cfg.quote with
    | none => rw [hv] at hq; cases hq
    | some qc => rfl
  constructor
  · intro hcond
    have hres : resplit cfg st newLine newSize delim =
        setErrorInvalidResplit st := by
      unfold resplit
      rw [hguard]
      simp only [Bool.false_eq_true, if_false]
      rw [hcond]
      simp
    exact ⟨hres, by rw [hres]; rfl, by rw [hres]; rfl, by rw [hres]; rfl⟩
  · intro hcond
    unfold resplit
    rw [hguard]
    simp only [Bool.false_eq_true, if_false]
    rw [hcond]
    simp only [Bool.false_eq_true, if_false]
    apply splitImplSelectDelim_no_invalid

end IrreducibleSplitter

example : escapedEol ['\\'] "ab\\".toList 3 = true := by decide

example : escapedEol ['\\'] "ab\\\\".toList 4 = false := by decide

example : escapedEol ['\\'] "ab".toList 2 = false := by decide

example : escapedEol ['\\'] [] 0 = false := by decide

example : escapedEol ['\\'] "\\".toList 1 = true := by decide

/-! ### C10: the parser validity accessor under throw-on-error -/

/-- `parser::valid()`: its `if constexpr` chain over the two error-mode
flags, with `msg` the string-error message `error_` and `flag` the
boolean `error_` of the flag mode. -/
def parserValid (stringError throwOnError : Bool) (msg : List Char)
    (flag : Bool) : Bool :=
  if stringError then msg.isEmpty
  else if throwOnError then true
  else !flag

/-- C10: with throw-on-error configured (and string-error off, as the
option setup makes the modes mutually exclusive), `valid()` returns true
unconditionally — for every message content and every state of the error
flag, in particular directly after a caught conversion error has set the
flag. -/
theorem valid_always_true_in_throw_mode (msg : List Char) (flag : Bool) :
    parserValid false true msg flag = true := rfl

/-- An escape-enabled configuration used to refute the uncorrected
count law. -/
def escCfg : SplitCfg :=
  { quote := some '"', escape := ['\\'], trimLeft := [], trimRight := [],
    multiline := false }

/-- C1 counterexample (to the uncorrected claim): with an escape matcher
configured, splitting `a\\,b` emits a single range while exactly one
delimiter occurrence lies outside any quoted region, so the emitted
range count is not the outside-quotes delimiter count plus one; and
`converter::split` maps the empty line to zero ranges, not to a single
empty field. -/
theorem split_field_count_counterexample :
    (ssSplit escCfg "a\\,b".toList [',']).error = none ∧
    ¬((ssSplit escCfg "a\\,b".toList [',']).splitData.length =
      1 + countDelimsOutsideQuotes escCfg [','] "a\\,b".toList) ∧
    converterSplitData plainCfg [] [','] = [] := by decide

/-- Witness for the corrected C1 range-count law at a concrete quoted
record. -/
theorem split_field_count_witness :
    (ssSplit quoteCfg "a,\"b,c\",d".toList [',']).error = none ∧
    ((ssSplit quoteCfg "a,\"b,c\",d".toList [',']).splitData.length =
      1 + countDelimsOutsideQuotes quoteCfg [','] "a,\"b,c\",d".toList ∧
     ("a,\"b,c\",d".toList = ([] : List Char) →
       (ssSplit quoteCfg "a,\"b,c\",d".toList [',']).splitData = [(0, 0)])) :=
  ⟨by decide, split_field_count quoteCfg [','] "a,\"b,c\",d".toList rfl
    (by decide) (by decide) (by decide) (by decide) (by decide)⟩


/-- The structured error conditions of `ss::converter`
(`set_error_*`). -/
inductive ConvErr where
  | unterminatedQuote
  | numberOfColumns (expected got : Nat)
  | incompatibleMapping (expected got : Nat)
  | invalidConversion (pos : Nat)
  | invalidMapping
  | mappingOutOfRange (maxIdx ncols : Nat)
  | multilineLimit
  | unterminatedEscape
  deriving Repr, DecidableEq

/-! ### The converter: scalar extraction, variants, arity checks -/

/-- The scalar cell types of the model: `char`, `std::string`, `bool`
(the specialised `extract` overloads of setup.hpp). -/
inductive Scal where
  | sChar
  | sStr
  | sBool
  deriving Repr, DecidableEq

/-- A parsed cell value. -/
inductive Val where
  | vChar (c : Char)
  | vStr (s : List Char)
  | vBool (b : Bool)
  deriving Repr, DecidableEq

/-- The specialised `extract(begin, end, value)` overloads, on the cell
content: `char` succeeds exactly on a one-byte cell and takes that byte;
`std::string` always succeeds and takes the whole cell; `bool` accepts
exactly `0`, `1`, `true` and `false`. -/
def extractScalar : Scal → List Char → Option Val
  | .sChar, fld => if fld.length = 1 then some (.vChar (fld.headD nulChar)) else none
  | .sStr, fld => some (.vStr fld)
  | .sBool, fld =>
    if fld.length = 1 then
      if fld.headD nulChar == '1' then some (.vBool true)
      else if fld.headD nulChar == '0' then some (.vBool false)
      else none
    else if fld = "true".toList then some (.vBool true)
    else if fld = "false".toList then some (.vBool false)
    else none

/-- `extract_variant<T, I>`: try the alternatives from index `I` on in
declaration order; the first success stops the recursion.  The result
records which alternative matched. -/
def extractVariantAux : List Scal → List Char → Nat → Option (Nat × Val)
  | [], _, _ => none
  | a :: rest, fld, i =>
    match extractScalar a fld with
    | some v => some (i, v)
    | none => extractVariantAux rest fld (i + 1)

/-- `extract` for `std::variant`: `extract_variant<T, 0>`. -/
def extractVariant (alts : List Scal) (fld : List Char) : Option (Nat × Val) :=
  extractVariantAux alts fld 0

/-- A column of the parse list: a scalar or a variant of scalars. -/
inductive ColSpec where
  | scalar (s : Scal)
  | variant (alts : List Scal)
  deriving Repr, DecidableEq

/-- The default-constructed value of a scalar type. -/
def Scal.dfl : Scal → Val
  | .sChar => .vChar nulChar
  | .sStr => .vStr []
  | .sBool => .vBool false

/-- The default-constructed value of a column (`std::variant` holds its
first alternative's default). -/
def ColSpec.dfl : ColSpec → Val
  | .scalar s => s.dfl
  | .variant alts => (alts.headD .sChar).dfl

/-- The typed `extract` dispatch of a column. -/
def ColSpec.extractCol : ColSpec → List Char → Option Val
  | .scalar sc, fld => extractScalar sc fld
  | .variant alts, fld => (extractVariant alts fld).map (fun p => p.2)

/-- `converter::extract_one`: skipped entirely once the converter is
invalid; otherwise a failed extraction records the invalid-conversion
error naming the position and leaves the destination at its default.
(The `std::string` special case skips the failure check, which is
behaviourally identical since the string extraction never fails.) -/
def extractOne (err : Option ConvErr) (spec : ColSpec) (fld : List Char)
    (pos : Nat) : Option ConvErr × Val :=
  if err.isSome then (err, spec.dfl)
  else
    match spec.extractCol fld with
    | some v => (none, v)
    | none => (some (.invalidConversion pos), spec.dfl)

/-- `converter::column_position`. -/
def columnPosition (columnMappings : List Nat) (i : Nat) : Nat :=
  if columnMappings.length = 0 then i else columnMappings.getD i 0

/-- `converter::extract_multiple`: walk the parse list left to right,
threading the error state. -/
def extractMultiple (mappings : List Nat) (elems : List (List Char)) :
    List ColSpec → Nat → Option ConvErr → Option ConvErr × List Val
  | [], _, err => (err, [])
  | spec :: rest, i, err =>
    let r := extractOne err spec (elems.getD (columnPosition mappings i) []) i
    let rr := extractMultiple mappings elems rest (i + 1) r.1
    (rr.1, r.2 :: rr.2)

/-- `converter::extract_tuple`. -/
def extractTuple (specs : List ColSpec) (mappings : List Nat)
    (elems : List (List Char)) : Option ConvErr × List Val :=
  extractMultiple mappings elems specs 0 none

/-- `converter::convert_impl`, arity checks in source order: the
splitter fault first; with no installed mapping the parse-list arity
must equal the column count; with an installed mapping its length must
equal the arity (incompatible-mapping error) and the column count must
equal the count recorded at installation (number-of-columns error).
Failure yields a default-constructed result. -/
def convertImpl (specs : List ColSpec) (mappings : List Nat) (ncols : Nat)
    (splitterValid : Bool) (elems : List (List Char)) :
    Option ConvErr × List Val :=
  if splitterValid = false then
    (some .unterminatedQuote, specs.map ColSpec.dfl)
  else if mappings.length = 0 then
    if specs.length ≠ elems.length then
      (some (.numberOfColumns specs.length elems.length), specs.map ColSpec.dfl)
    else extractTuple specs mappings elems
  else if specs.length ≠ mappings.length then
    (some (.incompatibleMapping specs.length mappings.length),
     specs.map ColSpec.dfl)
  else if elems.length ≠ ncols then
    (some (.numberOfColumns ncols elems.length), specs.map ColSpec.dfl)
  else extractTuple specs mappings elems

/-- `converter::set_column_mapping`: an empty mapping and a mapping that
addresses a column at or beyond the column count are rejected without
installing anything. -/
def setColumnMapping (positions : List Nat) (numberOfColumns : Nat) :
    Option ConvErr × (List Nat × Nat) :=
  if positions.isEmpty then (some .invalidMapping, ([], 0))
  else
    let maxIndex := positions.foldl max 0
    if numberOfColumns ≤ maxIndex then
      (some (.mappingOutOfRange maxIndex numberOfColumns), ([], 0))
    else (none, (positions, numberOfColumns))

/-- The variant recursion from start index `k`: if everything before
relative position `i` fails and position `i` succeeds, the recursion
stops there. -/
theorem extractVariantAux_spec (fld : List Char) :
    ∀ (alts : List Scal) (i k : Nat) (a : Scal) (v : Val),
      (∀ b ∈ alts.take i, extractScalar b fld = none) →
      (alts.drop i).head? = some a →
      extractScalar a fld = some v →
      extractVariantAux alts fld k = some (k + i, v) := by
  intro alts
  induction alts with
  | nil =>
    intro i k a v hfail hd hs
    rw [List.drop_nil] at hd
    simp at hd
  | cons x rest ihx =>
    intro i k a v hfail hd hs
    cases i with
    | zero =>
      rw [List.drop_zero] at hd
      have hxa : x = a := by simpa using hd
      subst hxa
      show (match extractScalar x fld with
        | some v => some (k, v)
        | none => extractVariantAux rest fld (k + 1)) = some (k + 0, v)
      rw [hs]
      simp
    | succ i2 =>
      have hx : extractScalar x fld = none := by
        apply hfail x
        rw [List.take_succ_cons]
        exact List.mem_cons_self x _
      show (match extractScalar x fld with
        | some v => some (k, v)
        | none => extractVariantAux rest fld (k + 1)) = some (k + (i2 + 1), v)
      rw [hx]
      have hrec := ihx i2 (k + 1) a v
        (fun b hb => hfail b (by rw [List.take_succ_cons]; exact List.mem_cons_of_mem x hb))
        (by simpa using hd) hs
      rw [hrec]
      have harith : k + 1 + i2 = k + (i2 + 1) := by omega
      rw [harith]

/-- The variant recursion fails when every alternative fails. -/
theorem extractVariantAux_none (fld : List Char) :
    ∀ (alts : List Scal) (k : Nat),
      (∀ a ∈ alts, extractScalar a fld = none) →
      extractVariantAux alts fld k = none := by
  intro alts
  induction alts with
  | nil =>
    intro k hfail
    rfl
  | cons x rest ihx =>
    intro k hfail
    have hx : extractScalar x fld = none := hfail x (List.mem_cons_self x _)
    show (match extractScalar x fld with
      | some v => some (k, v)
      | none => extractVariantAux rest fld (k + 1)) = none
    rw [hx]
    exact ihx (k + 1) (fun a ha => hfail a (List.mem_cons_of_mem x ha))

/-- C5: variant alternatives are attempted in declared order and the
first success wins — if every alternative before position `i` fails on
the cell and the one at `i` succeeds with value `v`, the extraction
yields exactly `(i, v)`; hence for a cell parseable as both
alternatives of a two-way variant the first-declared alternative wins
and swapping the declaration order swaps the result; and when every
alternative fails, `extract_one` records the invalid-conversion error
naming the position and leaves the default value. -/
theorem extract_variant_order (fld : List Char) :
    (∀ (alts : List Scal) (i : Nat) (a : Scal) (v : Val),
      (∀ b ∈ alts.take i, extractScalar b fld = none) →
      (alts.drop i).head? = some a →
      extractScalar a fld = some v →
      extractVariant alts fld = some (i, v)) ∧
    (∀ (a b : Scal) (va vb : Val),
      extractScalar a fld = some va → extractScalar b fld = some vb →
      extractVariant [a, b] fld = some (0, va) ∧
      extractVariant [b, a] fld = some (0, vb)) ∧
    (∀ (alts : List Scal) (pos : Nat),
      (∀ a ∈ alts, extractScalar a fld = none) →
      extractVariant alts fld = none ∧
      extractOne none (.variant alts) fld pos =
        (some (.invalidConversion pos), (ColSpec.variant alts).dfl)) := by
  refine ⟨?_, ?_, ?_⟩
  · intro alts i a v hfail hd hs
    have := extractVariantAux_spec fld alts i 0 a v hfail hd hs
    unfold extractVariant
    rw [this]
    simp
  · intro a b va vb ha hb
    constructor
    · have := extractVariantAux_spec fld [a, b] 0 0 a va (by simp) (by simp) ha
      unfold extractVariant
      rw [this]
    · have := extractVariantAux_spec fld [b, a] 0 0 b vb (by simp) (by simp) hb
      unfold extractVariant
      rw [this]
  · intro alts pos hfail
    have hnone : extractVariant alts fld = none := by
      unfold extractVariant
      exact extractVariantAux_none fld alts 0 hfail
    refine ⟨hnone, ?_⟩
    unfold extractOne
    simp only [Option.isSome_none, Bool.false_eq_true, if_false]
    show (match (ColSpec.variant alts).extractCol fld with
      | some v => ((none : Option ConvErr), v)
      | none => (some (.invalidConversion pos), (ColSpec.variant alts).dfl)) = _
    have hcol : (ColSpec.variant alts).extractCol fld = none := by
      show (extractVariant alts fld).map (fun p => p.2) = none
      rw [hnone]
      rfl
    rw [hcol]

/-- Witness for C5: `x` parses as both `char` and `std::string`; with
`variant<char, std::string>` the result holds the `char`, with the
declaration order swapped it holds the `std::string`; and `xy` as
`variant<char, bool>` at position 3 is the invalid-conversion error. -/
theorem extract_variant_order_witness :
    extractVariant [Scal.sChar, Scal.sStr] "x".toList =
      some (0, Val.vChar 'x') ∧
    extractVariant [Scal.sStr, Scal.sChar] "x".toList =
      some (0, Val.vStr "x".toList) ∧
    extractOne none (ColSpec.variant [Scal.sChar, Scal.sBool]) "xy".toList 3 =
      (some (ConvErr.invalidConversion 3),
       (ColSpec.variant [Scal.sChar, Scal.sBool]).dfl) :=
  ⟨((extract_variant_order "x".toList).2.1 Scal.sChar Scal.sStr
      (Val.vChar 'x') (Val.vStr "x".toList) (by decide) (by decide)).1,
   ((extract_variant_order "x".toList).2.1 Scal.sChar Scal.sStr
      (Val.vChar 'x') (Val.vStr "x".toList) (by decide) (by decide)).2,
   ((extract_variant_order "xy".toList).2.2 [Scal.sChar, Scal.sBool] 3
      (by decide)).2⟩

/-- C2 (corrected): the arity discipline of `convert_impl` on a valid
split of `k` columns against a parse list of arity `n`.  With no
mapping installed the check is `n = k`, any mismatch being the
number-of-columns error with a default result.  With a mapping of
length `m` installed, `m ≠ n` is rejected — but with the distinct
*incompatible-mapping* error ("number of arguments does not match
mapping"), not the number-of-columns error the original claim named —
and only the second check, `k` against the column count recorded at
installation, reports number-of-columns.  Both passes hand over to the
per-cell extraction. -/
theorem convert_impl_arity (specs : List ColSpec) (mappings : List Nat)
    (ncols : Nat) (elems : List (List Char)) :
    (mappings = [] → specs.length ≠ elems.length →
      convertImpl specs mappings ncols true elems =
        (some (.numberOfColumns specs.length elems.length),
         specs.map ColSpec.dfl)) ∧
    (mappings = [] → specs.length = elems.length →
      convertImpl specs mappings ncols true elems =
        extractTuple specs mappings elems) ∧
    (mappings ≠ [] → specs.length ≠ mappings.length →
      convertImpl specs mappings ncols true elems =
        (some (.incompatibleMapping specs.length mappings.length),
         specs.map ColSpec.dfl)) ∧
    (mappings ≠ [] → specs.length = mappings.length → elems.length ≠ ncols →
      convertImpl specs mappings ncols true elems =
        (some (.numberOfColumns ncols elems.length),
         specs.map ColSpec.dfl)) ∧
    (mappings ≠ [] → specs.length = mappings.length → elems.length = ncols →
      convertImpl specs mappings ncols true elems =
        extractTuple specs mappings elems) := by
  have hmap0 : mappings = [] → mappings.length = 0 := by
    intro h
    rw [h]
    rfl
  have hmapn : mappings ≠ [] → mappings.length ≠ 0 := by
    intro h
    cases mappings with
    | nil => cases h rfl
    | cons a l => simp
  refine ⟨?_, ?_, ?_, ?_, ?_⟩
  · intro h1 h2
    unfold convertImpl
    rw [if_neg (by simp), if_pos (hmap0 h1), if_pos h2]
  · intro h1 h2
    unfold convertImpl
    rw [if_neg (by simp), if_pos (hmap0 h1), if_neg (by omega)]
  · intro h1 h2
    unfold convertImpl
    rw [if_neg (by simp), if_neg (hmapn h1), if_pos h2]
  · intro h1 h2 h3
    unfold convertImpl
    rw [if_neg (by simp), if_neg (hmapn h1), if_neg (by omega), if_pos h3]
  · intro h1 h2 h3
    unfold convertImpl
    rw [if_neg (by simp), if_neg (hmapn h1), if_neg (by omega),
      if_neg (by omega)]

/-- C2 counterexample (to the uncorrected claim): a parse list of arity
1 against an installed mapping of length 2 is rejected with the
incompatible-mapping error, which is a different structured error from
the number-of-columns ("invalid number of columns") error the claim
predicted for every mismatch. -/
theorem convert_impl_arity_counterexample :
    (convertImpl [ColSpec.scalar Scal.sStr] [0, 1] 2 true
        [['a'], ['b']]).1 = some (ConvErr.incompatibleMapping 1 2) ∧
    some (ConvErr.incompatibleMapping 1 2) ≠
      some (ConvErr.numberOfColumns 2 2) ∧
    some (ConvErr.incompatibleMapping 1 2) ≠
      some (ConvErr.numberOfColumns 1 2) := by decide

/-- Witness for the corrected C2 arity discipline: no mapping and
`n = 2 ≠ 1 = k` is the number-of-columns error; a mapping of length 2
against arity 1 is the incompatible-mapping error. -/
theorem convert_impl_arity_witness :
    convertImpl [ColSpec.scalar Scal.sStr, ColSpec.scalar Scal.sChar] [] 0
        true [['a']] =
      (some (ConvErr.numberOfColumns 2 1),
       [Val.vStr [], Val.vChar nulChar]) ∧
    convertImpl [ColSpec.scalar Scal.sStr] [0, 1] 2 true [['a'], ['b']] =
      (some (ConvErr.incompatibleMapping 1 2), [Val.vStr []]) :=
  ⟨(convert_impl_arity [ColSpec.scalar Scal.sStr, ColSpec.scalar Scal.sChar]
      [] 0 [['a']]).1 rfl (by decide),
   ((convert_impl_arity [ColSpec.scalar Scal.sStr] [0, 1] 2
      [['a'], ['b']]).2.2.1 (by decide) (by decide))⟩

/-! ### The parser and its line reader (C6, C7)

The 6-argument `get_line` the reader delegates to is not part of the
repository sources; the line acquisition (`readLine`, `initPState`,
`appendNext`) is modelled from the spec: lines arrive eol-stripped one
at a time, and reading past the last line reports eof.  Everything else
(`parse`, `update`, `get_next`, the error clearing and the multiline
limit) is translated from parser.hpp. -/

/-- The state of `ss::parser` and its reader, with the two converters
(current and staged) flattened into their observable parts: the staged
record buffer, the cached fields, the converter error, and the staging
splitter's validity. -/
structure PState where
  lines : List (List Char)
  eof : Bool
  curConvErr : Option ConvErr
  curFields : List (List Char)
  curSplitterOk : Bool
  nextConvErr : Option ConvErr
  nextFields : List (List Char)
  nextSplitterOk : Bool
  nextLineBuf : List Char
  curLineBuf : List Char
  parserError : Bool
  deriving Repr, DecidableEq

/-- Modelled from the spec: `read_line` = `eof_ = !read_next()`.  The
reader clears the staged converter's error, then takes the next
eol-stripped line into the staged buffer; with no line left it reports
eof. -/
def readLine (st : PState) : PState :=
  match st.lines with
  | [] => { st with nextConvErr := none, eof := true }
  | l :: rest =>
    { st with nextConvErr := none, nextLineBuf := l, lines := rest
              eof := false }

/-- Modelled from the spec: the freshly constructed parser has primed
the staged buffer with the first record. -/
def initPState (l1 : List Char) (rest : List (List Char)) : PState :=
  { lines := rest, eof := false, curConvErr := none, curFields := []
    curSplitterOk := true, nextConvErr := none, nextFields := []
    nextSplitterOk := true, nextLineBuf := l1, curLineBuf := []
    parserError := false }

/-- `reader::parse` without multiline: delegate the staged buffer to
`converter::split` (which short-circuits the empty line, leaving the
staging splitter untouched). -/
def parseStep (cfg : SplitCfg) (delim : List Char) (st : PState) : PState :=
  if getc st.nextLineBuf 0 == nulChar then { st with nextFields := [] }
  else
    { st with nextFields := fieldsOf (ssSplit cfg st.nextLineBuf delim)
              nextSplitterOk :=
                decide ((ssSplit cfg st.nextLineBuf delim).error = none) }

/-- `reader::update`: swap the buffers and the converters. -/
def update (st : PState) : PState :=
  { st with curLineBuf := st.nextLineBuf, nextLineBuf := st.curLineBuf
            curFields := st.nextFields, nextFields := st.curFields
            curConvErr := st.nextConvErr, nextConvErr := st.curConvErr
            curSplitterOk := st.nextSplitterOk
            nextSplitterOk := st.curSplitterOk }

/-- `parser::get_next` in the flag-error mode, parameterised by the
parse stage (plain split, or the multiline variants): parse the staged
record, promote it, fault on a staged converter error, clear the
per-call error, fault on eof, convert with the parse list, record the
conversion fault, and prime the next record. -/
def getNextWith (parseFn : PState → PState) (specs : List ColSpec)
    (st : PState) : PState × List Val :=
  let st1 := if st.eof then st else parseFn st
  let st2 := update st1
  if st2.curConvErr.isSome then
    (readLine { st2 with parserError := true }, specs.map ColSpec.dfl)
  else
    let st3 := { st2 with parserError := false }
    if st3.eof then
      ({ st3 with parserError := true }, specs.map ColSpec.dfl)
    else
      let r := convertImpl specs [] 0 st3.curSplitterOk st3.curFields
      (readLine { st3 with curConvErr := r.1, parserError := r.1.isSome }, r.2)

/-- `parser::get_next` with the plain (non-multiline) parse stage. -/
def getNext (cfg : SplitCfg) (delim : List Char) (specs : List ColSpec)
    (st : PState) : PState × List Val :=
  getNextWith (parseStep cfg delim) specs st

/-- C6: a failed conversion on one record does not poison the parser.
Starting from a primed parser whose staged record `l1` converts with an
error and whose following record `l2` converts cleanly, the first
retrieval reports the error (default result, parser invalid) and the
second retrieval — which first clears the per-call error state —
returns the parsed value of `l2` with the parser valid again. -/
theorem conversion_error_not_sticky (cfg : SplitCfg) (delim : List Char)
    (specs : List ColSpec) (l1 l2 : List Char) (rest : List (List Char))
    (h1ne : (getc l1 0 == nulChar) = false)
    (h2ne : (getc l2 0 == nulChar) = false)
    (hfail : (convertImpl specs [] 0
        (decide ((ssSplit cfg l1 delim).error = none))
        (fieldsOf (ssSplit cfg l1 delim))).1.isSome = true)
    (hok : (convertImpl specs [] 0
        (decide ((ssSplit cfg l2 delim).error = none))
        (fieldsOf (ssSplit cfg l2 delim))).1 = none) :
    (getNext cfg delim specs (initPState l1 (l2 :: rest))).1.parserError =
      true ∧
    (getNext cfg delim specs (initPState l1 (l2 :: rest))).2 =
      (convertImpl specs [] 0
        (decide ((ssSplit cfg l1 delim).error = none))
        (fieldsOf (ssSplit cfg l1 delim))).2 ∧
    (getNext cfg delim specs
      (getNext cfg delim specs (initPState l1 (l2 :: rest))).1).1.parserError
      = false ∧
    (getNext cfg delim specs
      (getNext cfg delim specs (initPState l1 (l2 :: rest))).1).2 =
      (convertImpl specs [] 0
        (decide ((ssSplit cfg l2 delim).error = none))
        (fieldsOf (ssSplit cfg l2 delim))).2 := by
  have hstep1 : getNext cfg delim specs (initPState l1 (l2 :: rest)) =
      (({ lines := rest, eof := false,
          curConvErr := (convertImpl specs [] 0
            (decide ((ssSplit cfg l1 delim).error = none))
            (fieldsOf (ssSplit cfg l1 delim))).1,
          curFields := fieldsOf (ssSplit cfg l1 delim),
          curSplitterOk := decide ((ssSplit cfg l1 delim).error = none),
          nextConvErr := none, nextFields := [], nextSplitterOk := true,
          nextLineBuf := l2, curLineBuf := l1,
          parserError := true } : PState),
       (convertImpl specs [] 0
         (decide ((ssSplit cfg l1 delim).error = none))
         (fieldsOf (ssSplit cfg l1 delim))).2) := by
    unfold getNext getNextWith parseStep update initPState readLine
    simp only []
    rw [h1ne]
    simp only [Bool.false_eq_true, if_false]
    simp [hfail]
  have hstep2 : getNext cfg delim specs
      ({ lines := rest, eof := false,
         curConvErr := (convertImpl specs [] 0
           (decide ((ssSplit cfg l1 delim).error = none))
           (fieldsOf (ssSplit cfg l1 delim))).1,
         curFields := fieldsOf (ssSplit cfg l1 delim),
         curSplitterOk := decide ((ssSplit cfg l1 delim).error = none),
         nextConvErr := none, nextFields := [], nextSplitterOk := true,
         nextLineBuf := l2, curLineBuf := l1,
         parserError := true } : PState) =
      (readLine
        { lines := rest, eof := false, curConvErr := none,
          curFields := fieldsOf (ssSplit cfg l2 delim),
          curSplitterOk := decide ((ssSplit cfg l2 delim).error = none),
          nextConvErr := (convertImpl specs [] 0
            (decide ((ssSplit cfg l1 delim).error = none))
            (fieldsOf (ssSplit cfg l1 delim))).1,
          nextFields := fieldsOf (ssSplit cfg l1 delim),
          nextSplitterOk := decide ((ssSplit cfg l1 delim).error = none),
          nextLineBuf := l1, curLineBuf := l2, parserError := false },
       (convertImpl specs [] 0
         (decide ((ssSplit cfg l2 delim).error = none))
         (fieldsOf (ssSplit cfg l2 delim))).2) := by
    unfold getNext getNextWith parseStep update
    simp only []
    rw [h2ne]
    simp only [Bool.false_eq_true, if_false]
    simp [hok]
  refine ⟨by rw [hstep1], by rw [hstep1], ?_, ?_⟩
  · rw [hstep1]
    simp only []
    rw [hstep2]
    cases rest with
    | nil => rfl
    | cons a l => rfl
  · rw [hstep1]
    simp only []
    rw [hstep2]

/-- Witness for C6: converting `ab` as `char` fails (two-byte cell);
the retrieval reports it, and the following retrieval of `x` parses
cleanly with the parser valid again. -/
theorem conversion_error_not_sticky_witness :
    (getNext plainCfg [','] [ColSpec.scalar Scal.sChar]
      (initPState "ab".toList ["x".toList])).1.parserError = true ∧
    (getNext plainCfg [','] [ColSpec.scalar Scal.sChar]
      (initPState "ab".toList ["x".toList])).2 =
      (convertImpl [ColSpec.scalar Scal.sChar] [] 0
        (decide ((ssSplit plainCfg "ab".toList [',']).error = none))
        (fieldsOf (ssSplit plainCfg "ab".toList [',']))).2 ∧
    (getNext plainCfg [','] [ColSpec.scalar Scal.sChar]
      (getNext plainCfg [','] [ColSpec.scalar Scal.sChar]
        (initPState "ab".toList ["x".toList])).1).1.parserError = false ∧
    (getNext plainCfg [','] [ColSpec.scalar Scal.sChar]
      (getNext plainCfg [','] [ColSpec.scalar Scal.sChar]
        (initPState "ab".toList ["x".toList])).1).2 =
      (convertImpl [ColSpec.scalar Scal.sChar] [] 0
        (decide ((ssSplit plainCfg "x".toList [',']).error = none))
        (fieldsOf (ssSplit plainCfg "x".toList [',']))).2 :=
  conversion_error_not_sticky plainCfg [','] [ColSpec.scalar Scal.sChar]
    "ab".toList "x".toList [] (by decide) (by decide) (by decide) (by decide)

/-- Modelled from the spec: `append_next_line_to_buffer` — undo the
eol removal (re-append the newline), then concatenate the next
eol-stripped line onto the staged buffer; with no line left it fails
(the buffer mutation before the failed read is unobservable, since the
staged buffer is not converted after the resulting error). -/
def appendNext (st : PState) : Option PState :=
  match st.lines with
  | [] => none
  | l :: rest =>
    some { st with nextLineBuf := st.nextLineBuf ++ '\n' :: l, lines := rest }

/-- `j` successful continuation appends in a row. -/
def appendIterN : Nat → PState → Option PState
  | 0, st => some st
  | j + 1, st =>
    match appendNext st with
    | none => none
    | some st2 => appendIterN j st2

/-- The escaped-continuation loop of `reader::parse` with a configured
multiline limit `N > 0`: while the staged buffer ends in a live escape,
check the limit (`limit++ >= N`, i.e. the check fails once `N ≤ limit`,
staging the multiline-limit error), then append the next line (staging
the unterminated-escape error at eof); after the loop, split the staged
buffer.  The fuel dominates the line count, which bounds the loop. -/
def parseEsc (esc : List Char) (N : Nat) (cfg : SplitCfg)
    (delim : List Char) : Nat → Nat → PState → PState
  | 0, _, st => st
  | fuel + 1, limit, st =>
    if escapedEol esc st.nextLineBuf st.nextLineBuf.length then
      if N ≤ limit then { st with nextConvErr := some .multilineLimit }
      else
        match appendNext st with
        | none => { st with nextConvErr := some .unterminatedEscape }
        | some st2 => parseEsc esc N cfg delim fuel (limit + 1) st2
    else parseStep cfg delim st

/-- `reader::parse` with escaped-multiline enabled: the continuation
loop entered with `limit = 0`. -/
def parseML (esc : List Char) (N : Nat) (cfg : SplitCfg)
    (delim : List Char) (st : PState) : PState :=
  parseEsc esc N cfg delim (st.lines.length + 1) 0 st

theorem parseEsc_succ (esc : List Char) (N : Nat) (cfg : SplitCfg)
    (delim : List Char) (f limit : Nat) (st : PState) :
    parseEsc esc N cfg delim (f + 1) limit st =
      (if escapedEol esc st.nextLineBuf st.nextLineBuf.length then
        (if N ≤ limit then { st with nextConvErr := some .multilineLimit }
         else
          match appendNext st with
          | none => { st with nextConvErr := some .unterminatedEscape }
          | some st2 => parseEsc esc N cfg delim f (limit + 1) st2)
      else parseStep cfg delim st) := rfl

/-- The plain split stage does not consume input lines. -/
theorem parseStep_lines (cfg : SplitCfg) (delim : List Char)
    (st : PState) : (parseStep cfg delim st).lines = st.lines := by
  unfold parseStep
  split <;> rfl

/-- A successful continuation append consumes exactly one line. -/
theorem appendNext_lines (st st2 : PState)
    (h : appendNext st = some st2) :
    st.lines.length = st2.lines.length + 1 := by
  rcases hl : st.lines with _ | ⟨l, rest⟩
  · rw [show appendNext st = none by unfold appendNext; rw [hl]] at h
    cases h
  · rw [show appendNext st =
        some { st with nextLineBuf := st.nextLineBuf ++ '\n' :: l
                       lines := rest } by
      unfold appendNext
      rw [hl]] at h
    injection h with h3
    rw [← h3]
    rfl

/-- The continuation loop consumes at most `N - limit` lines. -/
theorem parseEsc_consumes (esc : List Char) (N : Nat) (cfg : SplitCfg)
    (delim : List Char) :
    ∀ (fuel limit : Nat) (st : PState),
      st.lines.length ≤
        (parseEsc esc N cfg delim fuel limit st).lines.length +
          (N - limit) := by
  intro fuel
  induction fuel with
  | zero =>
    intro limit st
    show st.lines.length ≤ st.lines.length + (N - limit)
    omega
  | succ f ihf =>
    intro limit st
    rw [parseEsc_succ]
    by_cases hesc : escapedEol esc st.nextLineBuf st.nextLineBuf.length = true
    · rw [if_pos hesc]
      by_cases hlim : N ≤ limit
      · rw [if_pos hlim]
        show st.lines.length ≤ st.lines.length + (N - limit)
        omega
      · rw [if_neg hlim]
        rcases han : appendNext st with _ | st2
        · show st.lines.length ≤ st.lines.length + (N - limit)
          omega
        · have h1 := appendNext_lines st st2 han
          have h2 := ihf (limit + 1) st2
          show st.lines.length ≤
            (parseEsc esc N cfg delim f (limit + 1) st2).lines.length +
              (N - limit)
          omega
    · rw [if_neg hesc, parseStep_lines]
      omega

/-- `j + 1` appends factor as one append and then `j`. -/
theorem appendIterN_step (j : Nat) (st st1 : PState)
    (h : appendNext st = some st1) :
    appendIterN (j + 1) st = appendIterN j st1 := by
  show (match appendNext st with
    | none => none
    | some st2 => appendIterN j st2) = appendIterN j st1
  rw [h]

/-- When the first `N + 1` staged buffers all end in a live escape, the
continuation loop performs exactly `N` appends and then stages the
multiline-limit error, abandoning the record. -/
theorem parseEsc_limit (esc : List Char) (N : Nat) (cfg : SplitCfg)
    (delim : List Char) :
    ∀ (k limit : Nat) (st : PState) (fuel : Nat) (stk : PState),
      limit + k = N →
      (∀ j, j ≤ k → (appendIterN j st).map
        (fun s => escapedEol esc s.nextLineBuf s.nextLineBuf.length) =
          some true) →
      k + 1 ≤ fuel →
      appendIterN k st = some stk →
      parseEsc esc N cfg delim fuel limit st =
        { stk with nextConvErr := some ConvErr.multilineLimit } := by
  intro k
  induction k with
  | zero =>
    intro limit st fuel stk hNk hall hfuel hit
    have hstk : st = stk := by
      have : some st = some stk := hit
      cases this
      rfl
    subst hstk
    obtain ⟨f, rfl⟩ : ∃ f, fuel = f + 1 := ⟨fuel - 1, by omega⟩
    rw [parseEsc_succ]
    have hesc0 := hall 0 (le_refl 0)
    simp [appendIterN] at hesc0
    rw [if_pos hesc0, if_pos (by omega)]
  | succ k2 ihk =>
    intro limit st fuel stk hNk hall hfuel hit
    obtain ⟨f, rfl⟩ : ∃ f, fuel = f + 1 := ⟨fuel - 1, by omega⟩
    rw [parseEsc_succ]
    have hesc0 := hall 0 (by omega)
    simp [appendIterN] at hesc0
    rw [if_pos hesc0, if_neg (by omega)]
    rcases han : appendNext st with _ | st1
    · exfalso
      rw [show appendIterN (k2 + 1) st = none by
        show (match appendNext st with
          | none => none
          | some st2 => appendIterN k2 st2) = none
        rw [han]] at hit
      cases hit
    · show parseEsc esc N cfg delim f (limit + 1) st1 = _
      have hit2 : appendIterN k2 st1 = some stk := by
        rw [← appendIterN_step k2 st st1 han]
        exact hit
      exact ihk (limit + 1) st1 f stk (by omega)
        (fun j hj => by rw [← appendIterN_step j st st1 han]; exact hall (j + 1) (by omega))
        (by omega) hit2

/-- `k` successful appends consume exactly `k` lines. -/
theorem appendIterN_lines :
    ∀ (k : Nat) (st stk : PState), appendIterN k st = some stk →
      st.lines.length = stk.lines.length + k := by
  intro k
  induction k with
  | zero =>
    intro st stk h
    have : some st = some stk := h
    cases this
    rfl
  | succ k2 ihk =>
    intro st stk h
    rcases han : appendNext st with _ | st1
    · exfalso
      rw [show appendIterN (k2 + 1) st = none by
        show (match appendNext st with
          | none => none
          | some st2 => appendIterN k2 st2) = none
        rw [han]] at h
      cases h
    · have h2 : appendIterN k2 st1 = some stk := by
        rw [← appendIterN_step k2 st st1 han]
        exact h
      have := ihk st1 stk h2
      have := appendNext_lines st st1 han
      omega

/-- C7: with a configured multiline limit `N > 0`, the escaped
continuation loop (i) consumes at most `N` continuation lines per
record, and (ii) once the first `N + 1` staged buffers all end in a
live trailing escape, the record is abandoned: exactly `N` lines were
appended, the staged converter carries the multiline-limit error, the
retrieval returns the default-constructed result with the parser
invalid, and it has already primed the following line, so the next
retrieval call starts past the abandoned record. -/
theorem multiline_limit_behaviour (esc : List Char) (N : Nat)
    (cfg : SplitCfg) (delim : List Char) (specs : List ColSpec)
    (st : PState) :
    st.lines.length ≤ (parseML esc N cfg delim st).lines.length + N ∧
    (∀ stN,
      (∀ j, j ≤ N → (appendIterN j st).map
        (fun s => escapedEol esc s.nextLineBuf s.nextLineBuf.length) =
          some true) →
      appendIterN N st = some stN →
      st.eof = false →
      parseML esc N cfg delim st =
        { stN with nextConvErr := some ConvErr.multilineLimit } ∧
      (getNextWith (parseML esc N cfg delim) specs st).2 =
        specs.map ColSpec.dfl ∧
      (getNextWith (parseML esc N cfg delim) specs st).1.parserError =
        true ∧
      (getNextWith (parseML esc N cfg delim) specs st).1.lines =
        stN.lines.drop 1) := by
  constructor
  · have := parseEsc_consumes esc N cfg delim (st.lines.length + 1) 0 st
    unfold parseML
    omega
  · intro stN hall hit heof
    have hlen := appendIterN_lines N st stN hit
    have hparse : parseML esc N cfg delim st =
        { stN with nextConvErr := some ConvErr.multilineLimit } := by
      unfold parseML
      exact parseEsc_limit esc N cfg delim N 0 st (st.lines.length + 1) stN
        (by omega) hall (by omega) hit
    refine ⟨hparse, ?_, ?_, ?_⟩
    · unfold getNextWith
      rw [heof]
      simp only [Bool.false_eq_true, if_false, hparse]
      simp [update]
    · unfold getNextWith
      rw [heof]
      simp only [Bool.false_eq_true, if_false, hparse]
      simp [update, readLine]
      cases hl : stN.lines with
      | nil => simp [readLine]
      | cons a l => simp [readLine]
    · unfold getNextWith
      rw [heof]
      simp only [Bool.false_eq_true, if_false, hparse]
      simp [update]
      cases hl : stN.lines with
      | nil => simp [readLine, hl]
      | cons a l => simp [readLine, hl]

/-- Witness for C7 at limit `N = 2`: three records ending in a live
backslash exhaust the limit; the retrieval returns the default with the
parser invalid. -/
theorem multiline_limit_behaviour_witness :
    (getNextWith (parseML ['\\'] 2 plainCfg [','])
        [ColSpec.scalar Scal.sStr]
        (initPState "a\\".toList
          ["b\\".toList, "c\\".toList, "d".toList])).2 =
      [ColSpec.scalar Scal.sStr].map ColSpec.dfl ∧
    (getNextWith (parseML ['\\'] 2 plainCfg [','])
        [ColSpec.scalar Scal.sStr]
        (initPState "a\\".toList
          ["b\\".toList, "c\\".toList, "d".toList])).1.parserError =
      true := by
  have h := (multiline_limit_behaviour ['\\'] 2 plainCfg [',']
      [ColSpec.scalar Scal.sStr]
      (initPState "a\\".toList
        ["b\\".toList, "c\\".toList, "d".toList])).2
    { lines := ["d".toList], eof := false, curConvErr := none,
      curFields := [], curSplitterOk := true, nextConvErr := none,
      nextFields := [], nextSplitterOk := true,
      nextLineBuf := "a\\\nb\\\nc\\".toList, curLineBuf := [],
      parserError := false }
    (by decide) (by decide) rfl
  exact ⟨h.2.1, h.2.2.1⟩

/-- A quoting configuration with multiline enabled, as used by the
quoted-multiline resume path. -/
def mlCfg : SplitCfg :=
  { quote := some '"', escape := [], trimLeft := [], trimRight := [],
    multiline := true }

/-- C9 counterexample (to the uncorrected claim): after the
unterminated-quote split of `"abc` the junk placeholder slice ends at 1,
and resuming with reported size 0 — strictly shorter than that end —
does **not** set the invalid-resplit error: the guard compares against
the suspended field start `end − 1 = 0`, and `0 < 0` fails, so the
resume proceeds (and here runs into the unterminated quote again). -/
theorem resplit_guard_counterexample :
    (ssSplit mlCfg "\"abc".toList [',']).splitData = [(0, 1)] ∧
    (ssSplit mlCfg "\"abc".toList [',']).unterminatedQuote = true ∧
    sizeTCast 0 < 1 ∧
    (resplit mlCfg (ssSplit mlCfg "\"abc".toList [',']) "\"abcx".toList 0
      [',']).error ≠ some .invalidResplit := by decide

/-- Witness for the corrected C9 guard law: a suspended field starting
at index 2 (placeholder slice `(0, 3)`), resumed with reported size 1,
trips the guard and records the invalid-resplit error. -/
theorem resplit_guard_witness :
    (((1 : Int) != -1 &&
      decide (sizeTCast 1 <
        ((ssSplit mlCfg "x,\"abc".toList [',']).splitData.getLastD (0, 0)).2 -
        ((ssSplit mlCfg "x,\"abc".toList [',']).splitData.getLastD
          (0, 0)).1 - 1)) = true) ∧
    (resplit mlCfg (ssSplit mlCfg "x,\"abc".toList [','])
      "x,\"abcd".toList 1 [',']).error = some .invalidResplit :=
  ⟨by decide, ((resplit_guard mlCfg (ssSplit mlCfg "x,\"abc".toList [','])
      "x,\"abcd".toList 1 [','] rfl rfl (by decide) (by decide)).1
        (by decide)).2.1⟩

end SSP
